import Mathlib

/-!
Shallow embedding of the pgraph crate: a persistent directed graph with data on
vertices, weighted edges, and generational identifiers.

Modelling conventions, applied throughout:
- usize becomes Nat (no overflow behaviour is exercised by the source);
- the process-wide atomic counter GENERATION (src/id.rs) is made explicit:
  every operation that draws a generation takes the current counter value c
  and returns the bumped counter c + 1, mirroring fetch_add(1);
- the structurally shared im::Vector becomes List, im::OrdSet of usize becomes
  a sorted duplicate-free List Nat (ordered insertion, minimum is the head);
- Arc-wrapped payloads are identified with their values in this value-level
  model (a separate refcounted-store model below captures copy-on-write
  sharing where a claim depends on it);
- panics become an explicit Panic value carried in Except, one constructor
  per distinct panic site / format string in the source;
- in-place mutation through a returned mutable reference is modelled by the
  corresponding state-transforming function.
-/

namespace PG

/-- Generational identifier for a vertex: slot index paired with a generation
tag (src/id.rs, struct Id). Equality is structural on both fields. -/
structure Id where
  index : Nat
  generation : Nat
deriving DecidableEq

/-- Generation allocator (src/id.rs, struct IdGen). Holds only its current
generation; fresh generations come from the explicit global counter. -/
structure IdGen where
  current_gen : Nat
deriving DecidableEq

/-- IdGen::new draws a fresh generation from the global counter. -/
def IdGen.new (c : Nat) : IdGen × Nat := (⟨c⟩, c + 1)

/-- IdGen::create_id stamps the index with the allocator's current generation. -/
def IdGen.create_id (g : IdGen) (index : Nat) : Id := ⟨index, g.current_gen⟩

/-- IdGen::next_gen replaces the current generation with a fresh counter draw. -/
def IdGen.next_gen (_g : IdGen) (c : Nat) : IdGen × Nat := (⟨c⟩, c + 1)

/-- Clone for IdGen calls Self::new: it draws a fresh generation, never copying
the current one (src/id.rs, impl Clone for IdGen). -/
def IdGen.cloneGen (_g : IdGen) (c : Nat) : IdGen × Nat := (⟨c⟩, c + 1)

/-- Panic sites of the source, one constructor per distinct panic message
template. The three vertex-indexing panics correspond to the three arms of
Index for PGraph (src/pgraph/mod.rs); sinkNotFound is the connect_mut panic;
edgeSinkNotFound is the Edge::from panic; unwrapNone is Option::unwrap on a
missing value (the weight unwrap in Index for AdjList). -/
inductive Panic where
  | invalidGeneration (id : Id)
  | removedVertex (id : Id)
  | otherGraph (id : Id)
  | sinkNotFound (id : Id)
  | edgeSinkNotFound (id : Id)
  | unwrapNone
deriving DecidableEq

variable {V E : Type}

/-- Decidable equality of Except results, used to evaluate concrete panic
outcomes. -/
instance {e a : Type} [DecidableEq e] [DecidableEq a] : DecidableEq (Except e a) := fun x y =>
  match x, y with
  | .ok u, .ok v => if h : u = v then isTrue (by rw [h]) else isFalse (by simp [h])
  | .error u, .error v => if h : u = v then isTrue (by rw [h]) else isFalse (by simp [h])
  | .ok _, .error _ => isFalse (by simp)
  | .error _, .ok _ => isFalse (by simp)

/-- Adjacency list of one vertex (src/pgraph/vertex/adj.rs, struct AdjList):
a sparse sequence indexed by the sink's slot, each populated entry storing the
sink Id and the edge weight. -/
structure AdjList (E : Type) where
  edges : List (Option (Id × E))
deriving DecidableEq

namespace AdjList

/-- AdjList::new. -/
def new : AdjList E := ⟨[]⟩

/-- Growth loop of add_edge and make_edge_mut: push None until the length
exceeds the target index. -/
def grow (l : List (Option (Id × E))) (n : Nat) : List (Option (Id × E)) :=
  l ++ List.replicate (n + 1 - l.length) none

/-- AdjList::weight: entry at the sink's slot, validated against the full Id
(index and generation). -/
def weight (a : AdjList E) (sink : Id) : Option E :=
  match a.edges[sink.index]? with
  | some (some (i, w)) => if sink = i then some w else none
  | _ => none

/-- AdjList::has_edge. -/
def has_edge (a : AdjList E) (sink : Id) : Bool :=
  (a.weight sink).isSome

/-- AdjList::add_edge: grow up to the sink's slot, then unconditionally replace
the entry there. -/
def add_edge (a : AdjList E) (sink : Id) (w : E) : AdjList E :=
  ⟨(grow a.edges sink.index).set sink.index (some (sink, w))⟩

/-- AdjList::disconnect_edge: take the entry at the sink's slot iff its stored
Id matches exactly; the Bool reports whether an edge was removed. -/
def disconnect_edge (a : AdjList E) (sink : Id) : AdjList E × Bool :=
  match a.edges[sink.index]? with
  | some (some (i, _)) =>
      if sink = i then (⟨a.edges.set sink.index none⟩, true) else (a, false)
  | _ => (a, false)

/-- AdjList::weight_mut followed by the caller writing through the returned
mutable reference: apply f to the weight of a validated entry, else no change.
Arc::make_mut is value-level identity here. -/
def update_weight (a : AdjList E) (sink : Id) (f : E → E) : AdjList E :=
  match a.edges[sink.index]? with
  | some (some (i, w)) => if sink = i then ⟨a.edges.set sink.index (some (i, f w))⟩ else a
  | _ => a

/-- Iteration over an AdjList (impl IntoIterator): the populated entries in
slot order. -/
def entries (a : AdjList E) : List (Id × E) :=
  a.edges.filterMap (fun e => e)

/-- AdjList::len counts populated entries. -/
def len (a : AdjList E) : Nat :=
  a.entries.length

/-- Index for AdjList: weight followed by unwrap, which panics on None. -/
def indexE (a : AdjList E) (sink : Id) : Except Panic E :=
  match a.weight sink with
  | some w => .ok w
  | none => .error .unwrapNone

end AdjList

/-- Vertex (src/pgraph/vertex/mod.rs): an Id, a payload and an adjacency list.
The Arc around the payload is identified with the payload value here. -/
structure Vertex (V E : Type) where
  id : Id
  data : V
  adj : AdjList E
deriving DecidableEq

namespace Vertex

/-- Vertex::from (renamed, from is a keyword): fresh vertex with an empty
adjacency list. -/
def fromId (id : Id) (data : V) : Vertex V E :=
  ⟨id, data, AdjList.new⟩

/-- Vertex::same_id. -/
def same_id (v : Vertex V E) (i : Id) : Bool :=
  i = v.id

/-- Vertex::weight. -/
def weight (v : Vertex V E) (sink : Id) : Option E :=
  v.adj.weight sink

/-- Vertex::is_connected. -/
def is_connected (v : Vertex V E) (sink : Id) : Bool :=
  v.adj.has_edge sink

/-- Vertex::connect_to delegates to AdjList::add_edge with no existence check
on the sink. -/
def connect_to (v : Vertex V E) (sink : Id) (w : E) : Vertex V E :=
  { v with adj := v.adj.add_edge sink w }

/-- Vertex::disconnect. -/
def disconnect (v : Vertex V E) (sink : Id) : Vertex V E × Bool :=
  let p := v.adj.disconnect_edge sink
  ({ v with adj := p.1 }, p.2)

/-- Vertex::data_mut followed by the caller writing a new value. -/
def with_data (v : Vertex V E) (x : V) : Vertex V E :=
  { v with data := x }

/-- Vertex weight_mut plus caller mutation, as a weight update. -/
def update_weight (v : Vertex V E) (sink : Id) (f : E → E) : Vertex V E :=
  { v with adj := v.adj.update_weight sink f }

end Vertex

/-- The graph (src/pgraph/mod.rs, struct PGraph): a sequence of optional
vertices, the free-slot set, and the generation allocator. -/
structure PGraph (V E : Type) where
  guts : List (Option (Vertex V E))
  empties : List Nat
  idgen : IdGen
deriving DecidableEq

/-- Ordered duplicate-free insertion, the behaviour of im::OrdSet::insert on
the sorted-list model of the set. -/
def ordInsert (x : Nat) : List Nat → List Nat
  | [] => [x]
  | y :: ys => if x < y then x :: y :: ys else if x = y then y :: ys else y :: ordInsert x ys

namespace PGraph

/-- PGraph::new draws a fresh generation from the counter. -/
def new (V E : Type) (c : Nat) : PGraph V E × Nat :=
  (⟨[], [], ⟨c⟩⟩, c + 1)

/-- Clone for PGraph: structure is shared (value copy here), the IdGen clone
draws a fresh generation. -/
def cloneAt (g : PGraph V E) (c : Nat) : PGraph V E × Nat :=
  ({ g with idgen := ⟨c⟩ }, c + 1)

/-- PGraph::find_empty: minimum of the ordered free-slot set. -/
def find_empty (g : PGraph V E) : Option Nat :=
  g.empties.head?

/-- PGraph::vertex: slot lookup validated against the full Id. -/
def vertex (g : PGraph V E) (id : Id) : Option (Vertex V E) :=
  match g.guts[id.index]? with
  | some (some v) => if v.same_id id then some v else none
  | _ => none

/-- PGraph::has_vertex. -/
def has_vertex (g : PGraph V E) (id : Id) : Bool :=
  (g.vertex id).isSome

/-- PGraph::vertex_data. -/
def vertex_data (g : PGraph V E) (id : Id) : Option V :=
  (g.vertex id).map Vertex.data

/-- PGraph::has_edge. -/
def has_edge (g : PGraph V E) (source sink : Id) : Bool :=
  match g.vertex source with
  | some v => v.is_connected sink
  | none => false

/-- PGraph::weight. -/
def weight (g : PGraph V E) (source sink : Id) : Option E :=
  (g.vertex source).bind (fun v => v.weight sink)

/-- PGraph::add_mut: reuse the lowest free slot if one exists, else append;
stamp with the current generation. Note the source never removes the reused
slot from the free-slot set. -/
def add_mut (g : PGraph V E) (x : V) : PGraph V E × Id :=
  match g.find_empty with
  | some i =>
      let id := g.idgen.create_id i
      ({ g with guts := g.guts.set i (some (Vertex.fromId id x)) }, id)
  | none =>
      let id := g.idgen.create_id g.guts.length
      ({ g with guts := g.guts ++ [some (Vertex.fromId id x)] }, id)

/-- PGraph::add: clone (fresh generation), then add_mut on the clone. -/
def add (g : PGraph V E) (x : V) (c : Nat) : (PGraph V E × Id) × Nat :=
  let p := g.cloneAt c
  (p.1.add_mut x, p.2)

/-- PGraph::add_all_mut: fold of add_mut, collecting the new Ids in order. -/
def add_all_mut (g : PGraph V E) (xs : List V) : PGraph V E × List Id :=
  xs.foldl (fun p x => let q := p.1.add_mut x; (q.1, p.2 ++ [q.2])) (g, [])

/-- PGraph::ids: Ids of the occupied slots in slot order. -/
def ids (g : PGraph V E) : List Id :=
  g.guts.filterMap (fun vo => vo.map Vertex.id)

/-- PGraph::iter_data. -/
def iter_data (g : PGraph V E) : List V :=
  g.guts.filterMap (fun vo => vo.map Vertex.data)

/-- PGraph::iter_weights: every occupied slot's adjacency entries, flattened,
weights only. -/
def iter_weights (g : PGraph V E) : List E :=
  ((g.guts.filterMap (fun vo => vo.map (fun v => v.adj.entries))).flatten).map Prod.snd

/-- PGraph::predecessors: all edges ending at the sink, as
(source id, sink, weight), validated through Vertex::weight. -/
def predecessors (g : PGraph V E) (sink : Id) : List (Id × Id × E) :=
  g.guts.filterMap (fun vo => vo.bind (fun v => (v.weight sink).map (fun e => (v.id, sink, e))))

/-- PGraph::predecessor_ids. -/
def predecessor_ids (g : PGraph V E) (sink : Id) : List Id :=
  (g.predecessors sink).map (fun t => t.1)

/-- PGraph::outbound_edges: empty when the source is not live. -/
def outbound_edges (g : PGraph V E) (source : Id) : List (Id × Id × E) :=
  match g.vertex source with
  | some v => v.adj.entries.map (fun p => (v.id, p.1, p.2))
  | none => []

/-- PGraph::outbound_ids. -/
def outbound_ids (g : PGraph V E) (source : Id) : List Id :=
  match g.vertex source with
  | some v => v.adj.entries.map (fun p => p.1)
  | none => []

/-- Index for PGraph by a single Id: the three distinguished panic arms of the
source (generation mismatch / removed slot / out of range). -/
def indexVertex (g : PGraph V E) (id : Id) : Except Panic (Vertex V E) :=
  match g.guts[id.index]? with
  | some (some v) => if v.same_id id then .ok v else .error (.invalidGeneration id)
  | some none => .error (.removedVertex id)
  | none => .error (.otherGraph id)

/-- Index for PGraph by an (source, sink) pair: index the source vertex, then
index its adjacency list (weight + unwrap). -/
def indexEdge (g : PGraph V E) (source sink : Id) : Except Panic E :=
  (g.indexVertex source).bind (fun v => v.adj.indexE sink)

/-- IndexMut-based in-place update of the source vertex, sharing the exact
validation and panic arms of indexVertex. -/
def updateVertex (g : PGraph V E) (id : Id) (f : Vertex V E → Vertex V E) :
    Except Panic (PGraph V E) :=
  (g.indexVertex id).map (fun v => { g with guts := g.guts.set id.index (some (f v)) })

/-- PGraph::connect_mut: validate the sink with a single sink-not-found panic,
then write through indexing on the source (whose three panic arms fire for a
dead source). -/
def connect_mut (g : PGraph V E) (source sink : Id) (w : E) : Except Panic (PGraph V E) :=
  if g.has_vertex sink then
    g.updateVertex source (fun v => v.connect_to sink w)
  else .error (.sinkNotFound sink)

/-- PGraph::try_connect_mut: no panics, false when either endpoint is dead. -/
def try_connect_mut (g : PGraph V E) (source sink : Id) (w : E) : PGraph V E × Bool :=
  if g.has_vertex sink then
    match g.vertex source with
    | some v => ({ g with guts := g.guts.set source.index (some (v.connect_to sink w)) }, true)
    | none => (g, false)
  else (g, false)

/-- PGraph::try_connect: clone only when both endpoints are live, then
connect_mut on the clone (which cannot then panic; a panic is mapped to the
absent result). -/
def try_connect (g : PGraph V E) (source sink : Id) (w : E) (c : Nat) :
    Option (PGraph V E) × Nat :=
  if g.has_vertex source && g.has_vertex sink then
    match ((g.cloneAt c).1.connect_mut source sink w).toOption with
    | some g2 => (some g2, c + 1)
    | none => (none, c + 1)
  else (none, c)

/-- PGraph::disconnect_mut: panics via indexing when the source is dead. -/
def disconnect_mut (g : PGraph V E) (source sink : Id) : Except Panic (PGraph V E × Bool) :=
  (g.indexVertex source).map (fun v =>
    let p := v.disconnect sink
    ({ g with guts := g.guts.set source.index (some p.1) }, p.2))

/-- PGraph::try_disconnect_mut. -/
def try_disconnect_mut (g : PGraph V E) (source sink : Id) : PGraph V E × Bool :=
  match g.vertex source with
  | some v =>
      let p := v.disconnect sink
      ({ g with guts := g.guts.set source.index (some p.1) }, p.2)
  | none => (g, false)

/-- PGraph::try_disconnect: clone after both liveness checks pass (consuming a
counter draw), result only when an edge was actually removed. -/
def try_disconnect (g : PGraph V E) (source sink : Id) (c : Nat) :
    Option (PGraph V E) × Nat :=
  if g.has_vertex source && g.has_vertex sink then
    let p := ((g.cloneAt c).1).try_disconnect_mut source sink
    (if p.2 then some p.1 else none, c + 1)
  else (none, c)

/-- PGraph::disconnect_all_inc_mut removes every edge ending at the sink: the
source collects the predecessor ids and disconnects each through indexing;
since Vertex.disconnect is the identity on a vertex without a validated edge
to the sink and acts on each slot independently, this equals disconnecting the
sink from every occupied slot. -/
def disconnect_all_inc_mut (g : PGraph V E) (sink : Id) : PGraph V E :=
  { g with guts := g.guts.map (fun vo => vo.map (fun v => (v.disconnect sink).1)) }

/-- PGraph::remove_mut_no_inc: clear the slot, record it among the free slots,
cascade-remove all incoming edges. No generation advance. -/
def remove_mut_no_inc (g : PGraph V E) (id : Id) : PGraph V E :=
  disconnect_all_inc_mut
    { g with guts := g.guts.set id.index none, empties := ordInsert id.index g.empties } id

/-- PGraph::try_remove_mut_no_inc. -/
def try_remove_mut_no_inc (g : PGraph V E) (id : Id) : PGraph V E × Bool :=
  if g.has_vertex id then (g.remove_mut_no_inc id, true) else (g, false)

/-- PGraph::remove_mut: remove if live, then advance the generation. -/
def remove_mut (g : PGraph V E) (id : Id) (c : Nat) : (PGraph V E × Bool) × Nat :=
  if g.has_vertex id then
    (({ g.remove_mut_no_inc id with idgen := ⟨c⟩ }, true), c + 1)
  else ((g, false), c)

/-- PGraph::remove: clone, then remove_mut on the clone. -/
def remove (g : PGraph V E) (id : Id) (c : Nat) : PGraph V E × Nat :=
  let p := g.cloneAt c
  let q := p.1.remove_mut id p.2
  (q.1.1, q.2)

/-- One iteration of PGraph::remove_all_mut_no_inc: remove if live, or the
result of the previous iterations with the changed flag accumulated. -/
def removeAllStep (p : PGraph V E × Bool) (id : Id) : PGraph V E × Bool :=
  let q := p.1.try_remove_mut_no_inc id
  (q.1, q.2 || p.2)

/-- PGraph::remove_all_mut_no_inc: fold of try_remove_mut_no_inc, accumulating
whether anything changed. -/
def remove_all_mut_no_inc (g : PGraph V E) (l : List Id) : PGraph V E × Bool :=
  l.foldl removeAllStep (g, false)

/-- PGraph::remove_all_mut: batch removal, advancing the generation once iff
anything changed. -/
def remove_all_mut (g : PGraph V E) (l : List Id) (c : Nat) : (PGraph V E × Bool) × Nat :=
  if (g.remove_all_mut_no_inc l).2 then
    (({ (g.remove_all_mut_no_inc l).1 with idgen := ⟨c⟩ }, true), c + 1)
  else (((g.remove_all_mut_no_inc l).1, false), c)

/-- PGraph::remove_all: clone, then remove_all_mut on the clone. -/
def remove_all (g : PGraph V E) (l : List Id) (c : Nat) : PGraph V E × Nat :=
  let p := g.cloneAt c
  let q := p.1.remove_all_mut l p.2
  (q.1.1, q.2)

/-- PGraph::try_remove (Cow-based): clone with a fresh generation only when the
vertex is live, then remove without a generation advance. -/
def try_remove (g : PGraph V E) (id : Id) (c : Nat) : Option (PGraph V E) × Nat :=
  if g.has_vertex id then (some (((g.cloneAt c).1).remove_mut_no_inc id), c + 1)
  else (none, c)

/-- One iteration of the Cow fold of PGraph::try_remove_all: while nothing was
cloned yet, liveness is checked against the borrowed graph g and the first hit
clones it (one counter draw); afterwards ids are removed from the owned
clone. -/
def tryRemoveAllStep (g : PGraph V E) (acc : Option (PGraph V E) × Nat) (id : Id) :
    Option (PGraph V E) × Nat :=
  match acc with
  | (none, c1) =>
      if g.has_vertex id then (some (((g.cloneAt c1).1).remove_mut_no_inc id), c1 + 1)
      else (none, c1)
  | (some h, c1) => (some (h.try_remove_mut_no_inc id).1, c1)

/-- PGraph::try_remove_all (Cow-based). -/
def try_remove_all (g : PGraph V E) (l : List Id) (c : Nat) : Option (PGraph V E) × Nat :=
  l.foldl (tryRemoveAllStep g) (none, c)

/-- Edge::from followed by Edge::and_modify (src/pgraph/edge.rs): the builder
construction panics when the sink is not live; binding the source goes through
IndexMut with its three panic arms; and_modify applies the function through
weight_mut (validated entry) and creates nothing when the edge is absent. -/
def edge_and_modify (g : PGraph V E) (source sink : Id) (f : E → E) :
    Except Panic (PGraph V E) :=
  if g.has_vertex sink then
    g.updateVertex source (fun v => v.update_weight sink f)
  else .error (.edgeSinkNotFound sink)

/-- PGraph::recreate: a fresh graph; every live vertex is re-added in slot
order while building the old-Id-to-new-Id map; every adjacency entry is then
replayed through that map. The map lookups are HashMap indexing, which panics
on a missing key, and the replay uses connect_mut: both panics appear as the
absent result. -/
def recreate (g : PGraph V E) (c : Nat) : Option (PGraph V E) × Nat :=
  let p := PGraph.new V E c
  let vs := g.guts.filterMap (fun vo => vo)
  let q := vs.foldl
    (fun (r : PGraph V E × List (Id × Id)) v =>
      let s := r.1.add_mut v.data
      (s.1, r.2 ++ [(v.id, s.2)])) (p.1, [])
  let res := vs.foldl
    (fun (acc : Option (PGraph V E)) v =>
      v.adj.entries.foldl
        (fun acc2 pr =>
          acc2.bind (fun r =>
            (List.lookup v.id q.2).bind (fun nsrc =>
              (List.lookup pr.1 q.2).bind (fun nsink =>
                (r.connect_mut nsrc nsink pr.2).toOption)))) acc)
    (some q.1)
  (res, p.2)

/-- NodeCount::node_count (src/pgraph/external_impls.rs) returns the size of
the free-slot set. -/
def node_count (g : PGraph V E) : Nat :=
  g.empties.length

/-- NodeIndexable::node_bound. -/
def node_bound (g : PGraph V E) : Nat :=
  g.node_count

/-- NodeIndexable::to_index as the source computes it: the slot index PLUS the
number of free-slot entries strictly below it (OrdSet::split keeps the
strictly smaller elements on the left). -/
def to_index (g : PGraph V E) (a : Id) : Nat :=
  a.index + g.empties.countP (fun e => decide (e < a.index))

/-- Walk of NodeIndexable::from_index over the ordered free slots: each free
slot at or below the running index shifts it up by one, stopping at the first
larger one. -/
def from_index_walk : List Nat → Nat → Nat
  | [], i => i
  | e :: es, i => if e ≤ i then from_index_walk es (i + 1) else i

/-- NodeIndexable::from_index: walk the free slots, then read the stored Id of
the resulting slot; the source indexes the backing vector and unwraps, so an
out-of-range or empty slot is a panic, here the absent result. -/
def from_index (g : PGraph V E) (i : Nat) : Option Id :=
  (g.guts[from_index_walk g.empties i]?).bind (fun vo => vo.map Vertex.id)

/-- Modelled from the spec (section 4.7): to_index as the spec words it, the
slot index MINUS the count of holes strictly below it. This is the comparison
definition for the compact-indexing claim; to_index above is translated from
the source. -/
def to_index_spec (g : PGraph V E) (a : Id) : Nat :=
  a.index - g.empties.countP (fun e => decide (e < a.index))

end PGraph

/-! Concrete traces used by sanity checks, counterexamples and witnesses.
The trace of spec section 8: three vertices 1, 2, 3 and edges a-to-b (12),
b-to-c (23), built through the public operations starting from new. -/

/-- Fallback-to-previous plumbing for chaining Except-valued steps of concrete
traces; every chained step is separately asserted to be ok. -/
def step (g : PGraph Nat Nat) (r : Except Panic (PGraph Nat Nat)) : PGraph Nat Nat :=
  r.toOption.getD g

def trG0 : PGraph Nat Nat := (PGraph.new Nat Nat 0).1

def trS1 : PGraph Nat Nat × Id := trG0.add_mut 1

def trA : Id := trS1.2

def trS2 : PGraph Nat Nat × Id := trS1.1.add_mut 2

def trB : Id := trS2.2

def trS3 : PGraph Nat Nat × Id := trS2.1.add_mut 3

def trC : Id := trS3.2

def trG3 : PGraph Nat Nat := trS3.1

def trG4 : PGraph Nat Nat := step trG3 (trG3.connect_mut trA trB 12)

def trG5 : PGraph Nat Nat := step trG4 (trG4.connect_mut trB trC 23)

def trRemB : PGraph Nat Nat := ((trG5.remove_mut trB 1).1).1

def trNew9 : PGraph Nat Nat × Id := trRemB.add_mut 9

/-! Trace for the free-slot invariant: add one vertex, remove it, add again.
The freed slot is reused but never taken out of the free-slot set. -/

def c1S1 : PGraph Nat Nat × Id := trG0.add_mut 10

def c1A : Id := c1S1.2

def c1G2 : PGraph Nat Nat := ((c1S1.1.remove_mut c1A 1).1).1

def c1S3 : PGraph Nat Nat × Id := c1G2.add_mut 11

def c1B : Id := c1S3.2

def c1G3 : PGraph Nat Nat := c1S3.1

/-! Trace for compact indexing: two vertices, remove the first, leaving one
hole below the surviving vertex in slot 1. -/

def c3S1 : PGraph Nat Nat × Id := trG0.add_mut 10

def c3S2 : PGraph Nat Nat × Id := c3S1.1.add_mut 20

def c3B : Id := c3S2.2

def c3G : PGraph Nat Nat := ((c3S2.1.remove_mut c3S1.2 1).1).1

/-! Trace for recreate: build a graph in which the free-slot defect leaves a
dangling adjacency entry. Slots 0, 1, 2 hold 10, 20, 30; slot 1 is freed and
reused for 40 (slot 1 stays listed free); an edge 0-to-1 is added; slot 2 is
freed (generation advances); the next add reuses slot 1 again, silently
replacing vertex 40 under a new generation and stranding the 0-to-1 entry. -/

def c7S1 : PGraph Nat Nat × Id := trG0.add_mut 10

def c7A : Id := c7S1.2

def c7S2 : PGraph Nat Nat × Id := c7S1.1.add_mut 20

def c7X : Id := c7S2.2

def c7S3 : PGraph Nat Nat × Id := c7S2.1.add_mut 30

def c7Z : Id := c7S3.2

def c7G4 : PGraph Nat Nat := ((c7S3.1.remove_mut c7X 1).1).1

def c7S5 : PGraph Nat Nat × Id := c7G4.add_mut 40

def c7C : Id := c7S5.2

def c7G6 : PGraph Nat Nat := step c7S5.1 (c7S5.1.connect_mut c7A c7C 99)

def c7G7 : PGraph Nat Nat := ((c7G6.remove_mut c7Z 2).1).1

def c7S8 : PGraph Nat Nat × Id := c7G7.add_mut 50

def c7D : Id := c7S8.2

def c7G8 : PGraph Nat Nat := c7S8.1

/-! Traces for the connect_mut panic messages: the same dead sink Id hits the
stale-generation case in one graph and the never-allocated case in another. -/

def c5S1 : PGraph Nat Nat × Id := trG0.add_mut 1

def c5A : Id := c5S1.2

def c5S2 : PGraph Nat Nat × Id := c5S1.1.add_mut 2

def c5B : Id := c5S2.2

def c5G3 : PGraph Nat Nat := ((c5S2.1.remove_mut c5B 1).1).1

def c5S4 : PGraph Nat Nat × Id := c5G3.add_mut 3

def c5Stale : PGraph Nat Nat := c5S4.1

def c5S5 : PGraph Nat Nat × Id := (PGraph.new Nat Nat 5).1.add_mut 1

def c5Never : PGraph Nat Nat := c5S5.1

def c5A2 : Id := c5S5.2

/-! Trace for the removal cascade with a self-edge: one vertex with an edge to
itself, then removed. -/

def c6S1 : PGraph Nat Nat × Id := trG0.add_mut 1

def c6A : Id := c6S1.2

def c6G : PGraph Nat Nat := step c6S1.1 (c6S1.1.connect_mut c6A c6A 5)

def c6G2 : PGraph Nat Nat := ((c6G.remove_mut c6A 1).1).1

/-! World model for reachability. The process state is the shared generation
counter, the graph values alive in the process, and the Ids handed out so far.
Each public operation is one step: in-place operations replace their graph in
the list, while clone, the Cow-based try operations and graph construction
append a new graph (the borrowed original survives). The value-returning
operations add, remove, remove_all, connect, disconnect are, exactly as in
the source, a clone step followed by the corresponding in-place step, so they
need no constructors of their own; likewise add_all(_mut) is an iterated
add_mut, and try_connect / try_disconnect produce a clone followed by a
skeleton-preserving change. Operations that only touch vertex payloads or
adjacency contents (connect_mut, disconnect_mut and their try variants,
vertex_data_mut, weight_mut, the IndexMut writes and the whole edge entry
builder) are covered by the skeleton-preserving step, which permits any change
that keeps slot occupancy, occupant Ids, the free-slot set and the allocator
fixed: a superset of everything those operations can do, so properties proved
over these steps hold a fortiori for the concrete operations. -/

structure WState (V E : Type) where
  counter : Nat
  graphs : List (PGraph V E)
  minted : List Id

/-- Changes that keep the graph's skeleton: same allocator state, same free
slot set, and the same occupancy and occupant Id at every slot. -/
def SameSkeleton (g g2 : PGraph V E) : Prop :=
  g2.idgen = g.idgen ∧ g2.empties = g.empties ∧
  ∀ j : Nat, (g2.guts[j]?).map (Option.map Vertex.id) = (g.guts[j]?).map (Option.map Vertex.id)

/-- One public operation of the library, as a transition on the process
state. -/
inductive Step : WState V E → WState V E → Prop where
  | newGraph (c : Nat) (gs : List (PGraph V E)) (M : List Id) :
      Step ⟨c, gs, M⟩ ⟨c + 1, (PGraph.new V E c).1 :: gs, M⟩
  | cloneG (c : Nat) (gs : List (PGraph V E)) (M : List Id) (i : Nat) (g : PGraph V E)
      (hg : gs[i]? = some g) :
      Step ⟨c, gs, M⟩ ⟨c + 1, (g.cloneAt c).1 :: gs, M⟩
  | addMut (c : Nat) (gs : List (PGraph V E)) (M : List Id) (i : Nat) (g : PGraph V E)
      (x : V) (hg : gs[i]? = some g) :
      Step ⟨c, gs, M⟩ ⟨c, gs.set i (g.add_mut x).1, (g.add_mut x).2 :: M⟩
  | removeMut (c : Nat) (gs : List (PGraph V E)) (M : List Id) (i : Nat) (g : PGraph V E)
      (id : Id) (hg : gs[i]? = some g) :
      Step ⟨c, gs, M⟩ ⟨(g.remove_mut id c).2, gs.set i ((g.remove_mut id c).1).1, M⟩
  | removeAllMut (c : Nat) (gs : List (PGraph V E)) (M : List Id) (i : Nat) (g : PGraph V E)
      (l : List Id) (hg : gs[i]? = some g) :
      Step ⟨c, gs, M⟩ ⟨(g.remove_all_mut l c).2, gs.set i ((g.remove_all_mut l c).1).1, M⟩
  | tryRemove (c : Nat) (gs : List (PGraph V E)) (M : List Id) (i : Nat) (g : PGraph V E)
      (id : Id) (g2 : PGraph V E) (c2 : Nat) (hg : gs[i]? = some g)
      (hr : g.try_remove id c = (some g2, c2)) :
      Step ⟨c, gs, M⟩ ⟨c2, g2 :: gs, M⟩
  | tryRemoveAll (c : Nat) (gs : List (PGraph V E)) (M : List Id) (i : Nat) (g : PGraph V E)
      (l : List Id) (g2 : PGraph V E) (c2 : Nat) (hg : gs[i]? = some g)
      (hr : g.try_remove_all l c = (some g2, c2)) :
      Step ⟨c, gs, M⟩ ⟨c2, g2 :: gs, M⟩
  | mutSkeleton (c : Nat) (gs : List (PGraph V E)) (M : List Id) (i : Nat)
      (g g2 : PGraph V E) (hg : gs[i]? = some g) (hsk : SameSkeleton g g2) :
      Step ⟨c, gs, M⟩ ⟨c, gs.set i g2, M⟩

/-- Process states reachable from process start (counter 0, no graphs, no
Ids) by any sequence of public operations. -/
def Reachable (s : WState V E) : Prop :=
  Relation.ReflTransGen Step ⟨0, [], []⟩ s

/-- Every free-slot entry lies below the backing sequence's length. -/
def emptiesBounded (g : PGraph V E) : Prop :=
  ∀ j ∈ g.empties, j < g.guts.length

/-- The generational invariant of reachable process states: every graph's
current generation and every minted Id's generation lie below the counter; a
minted Id whose generation equals some graph's current generation is live in
that graph; distinct graphs have distinct current generations; free-slot
entries are in bounds. -/
def WInvC (c : Nat) (gs : List (PGraph V E)) (M : List Id) : Prop :=
  (∀ (i : Nat) (g : PGraph V E), gs[i]? = some g → g.idgen.current_gen < c) ∧
  (∀ a ∈ M, a.generation < c) ∧
  (∀ (i : Nat) (g : PGraph V E), gs[i]? = some g →
    ∀ a ∈ M, a.generation = g.idgen.current_gen → g.has_vertex a = true) ∧
  (∀ (i j : Nat) (g1 g2 : PGraph V E), i ≠ j → gs[i]? = some g1 →
    gs[j]? = some g2 → g1.idgen.current_gen ≠ g2.idgen.current_gen) ∧
  (∀ (i : Nat) (g : PGraph V E), gs[i]? = some g → emptiesBounded g)

/-- The invariant, packaged over a process state. -/
def WInv (s : WState V E) : Prop :=
  WInvC s.counter s.graphs s.minted

/-! ### Refcounted-store model of Arc sharing

The value-level PGraph model above identifies Arc payloads with their values,
which is sound for claims that do not depend on sharing. The entry API
(Edge::or_insert) and clone isolation do depend on it: or_insert mutates
through Arc::get_mut(..).unwrap(), which panics exactly when the weight Arc is
shared, while the other write paths go through Arc::make_mut, which silently
copies.

This model makes the Arcs explicit. A store is a list of cells, one cell per
Arc allocation, holding a reference count and the payload; vertices carry
store indices for their data Arc and for each edge's weight Arc. A cell's
count models the number of graph handles that can reach the Arc once
im::Vector's path copying has materialised one chunk per handle. The source
tests Arc uniqueness (get_mut / make_mut) only after the enclosing chunk has
been path-copied by a get_mut/index_mut on the vector, so cloning a graph is
modelled as eagerly bumping every cell the graph references; the uniqueness
tests then see exactly the counts the source sees at its test points. -/

structure Cell (A : Type) where
  count : Nat
  val : A
deriving DecidableEq

/-- Arc::new: a fresh uniquely-owned cell at the end of the store. -/
def alloc {A : Type} (st : List (Cell A)) (x : A) : List (Cell A) × Nat :=
  (st ++ [⟨1, x⟩], st.length)

/-- Arc::clone (one more handle): increment the cell's count. -/
def bump {A : Type} (st : List (Cell A)) (q : Nat) : List (Cell A) :=
  match st[q]? with
  | some c => st.set q ⟨c.count + 1, c.val⟩
  | none => st

/-- Drop of an Arc handle: decrement the cell's count. -/
def decRef {A : Type} (st : List (Cell A)) (q : Nat) : List (Cell A) :=
  match st[q]? with
  | some c => st.set q ⟨c.count - 1, c.val⟩
  | none => st

def bumpAll {A : Type} (st : List (Cell A)) (ps : List Nat) : List (Cell A) :=
  ps.foldl bump st

def decRefAll {A : Type} (st : List (Cell A)) (ps : List Nat) : List (Cell A) :=
  ps.foldl decRef st

/-- Dereference: the payload stored at a pointer. -/
def valAt {A : Type} (st : List (Cell A)) (q : Nat) : Option A :=
  (st[q]?).map Cell.val

/-- Reference count at a pointer (0 for a dangling pointer). -/
def countAt {A : Type} (st : List (Cell A)) (q : Nat) : Nat :=
  ((st[q]?).map Cell.count).getD 0

/-- Arc::make_mut followed by a write through the returned reference: update
in place when uniquely owned, else clone the payload into a fresh cell,
dropping one handle of the shared one. Returns the store and the pointer the
writer ends up holding. -/
def makeMut {A : Type} (st : List (Cell A)) (q : Nat) (f : A → A) :
    List (Cell A) × Nat :=
  match st[q]? with
  | some c =>
      if c.count = 1 then (st.set q ⟨1, f c.val⟩, q)
      else ((st.set q ⟨c.count - 1, c.val⟩) ++ [⟨1, f c.val⟩], st.length)
  | none => (st, q)

/-- Vertex in the store model: the data field and each edge weight are store
pointers (Arc allocations). -/
structure SVertex where
  id : Id
  data : Nat
  adj : List (Option (Id × Nat))
deriving DecidableEq

/-- PGraph in the store model; the allocator is kept as its current
generation. -/
structure SGraph where
  guts : List (Option SVertex)
  empties : List Nat
  gen : Nat
deriving DecidableEq

/-- PGraph::vertex in the store model: slot lookup validated against the full
Id. -/
def sVertexRaw (g : SGraph) (id : Id) : Option SVertex :=
  match g.guts[id.index]? with
  | some (some v) => if id = v.id then some v else none
  | _ => none

/-- PGraph::has_vertex in the store model. -/
def sHas_vertex (g : SGraph) (id : Id) : Bool :=
  (sVertexRaw g id).isSome

/-- AdjList::weight in the store model: the validated entry's weight
pointer. -/
def sWeightPtr (v : SVertex) (sink : Id) : Option Nat :=
  match v.adj[sink.index]? with
  | some (some iq) => if sink = iq.1 then some iq.2 else none
  | _ => none

/-- All data pointers a graph references, with multiplicity. -/
def vptrs (g : SGraph) : List Nat :=
  g.guts.filterMap (Option.map SVertex.data)

def adjPtrs (adj : List (Option (Id × Nat))) : List Nat :=
  adj.filterMap (Option.map Prod.snd)

/-- All weight pointers a graph references, with multiplicity. -/
def eptrs (g : SGraph) : List Nat :=
  (g.guts.filterMap (Option.map (fun v => adjPtrs v.adj))).flatten

/-- PGraph::vertex_data in the store model. -/
def sVertex_data (g : SGraph) (vs : List (Cell V)) (id : Id) : Option V :=
  (sVertexRaw g id).bind (fun v => valAt vs v.data)

/-- PGraph::weight in the store model. -/
def sWeight (g : SGraph) (es : List (Cell E)) (source sink : Id) : Option E :=
  (sVertexRaw g source).bind (fun v => (sWeightPtr v sink).bind (fun q => valAt es q))

/-- PGraph::has_edge in the store model. -/
def sHas_edge (g : SGraph) (source sink : Id) : Bool :=
  match sVertexRaw g source with
  | some v => (sWeightPtr v sink).isSome
  | none => false

/-- PGraph::ids in the store model. -/
def sIds (g : SGraph) : List Id :=
  g.guts.filterMap (Option.map SVertex.id)

/-- PGraph::iter_data in the store model. -/
def sIterData (g : SGraph) (vs : List (Cell V)) : List V :=
  (vptrs g).filterMap (fun q => valAt vs q)

/-- PGraph::iter_weights in the store model. -/
def sIterWeights (g : SGraph) (es : List (Cell E)) : List E :=
  (eptrs g).filterMap (fun q => valAt es q)

/-- PGraph::outbound_edges in the store model. -/
def sOutboundEdges (g : SGraph) (es : List (Cell E)) (source : Id) : List (Id × E) :=
  match sVertexRaw g source with
  | some v => v.adj.filterMap (fun e =>
      e.bind (fun iq => (valAt es iq.2).map (fun w => (iq.1, w))))
  | none => []

/-- PGraph::predecessors in the store model: the vertices with an edge ending
at the sink, observed as Id and dereferenced data. -/
def sPredecessors (g : SGraph) (vs : List (Cell V)) (sink : Id) : List (Id × V) :=
  g.guts.filterMap (fun ov => ov.bind (fun v =>
    if (sWeightPtr v sink).isSome then (valAt vs v.data).map (fun d => (v.id, d))
    else none))

/-- The read API of a graph over the stores, bundled. -/
structure Reads (V E : Type) where
  hasV : Id → Bool
  vData : Id → Option V
  hasE : Id → Id → Bool
  weightAt : Id → Id → Option E
  idsL : List Id
  dataL : List V
  weightsL : List E
  outE : Id → List (Id × E)
  preds : Id → List (Id × V)

/-- Every read-API observation of a graph, as one value. -/
def sReads (g : SGraph) (vs : List (Cell V)) (es : List (Cell E)) : Reads V E :=
  ⟨fun id => sHas_vertex g id,
   fun id => sVertex_data g vs id,
   fun source sink => sHas_edge g source sink,
   fun source sink => sWeight g es source sink,
   sIds g,
   sIterData g vs,
   sIterWeights g es,
   fun source => sOutboundEdges g es source,
   fun sink => sPredecessors g vs sink⟩

/-- Clone for PGraph in the store model: the skeleton is copied, the IdGen
clone draws a fresh generation, and every Arc the graph references gains a
handle. -/
def sClone (g : SGraph) (c : Nat) (vs : List (Cell V)) (es : List (Cell E)) :
    SGraph × List (Cell V) × List (Cell E) × Nat :=
  ({ g with gen := c }, bumpAll vs (vptrs g), bumpAll es (eptrs g), c + 1)

/-- Drop of a Vertex value: one handle of its data Arc and of each edge weight
Arc goes away. -/
def dropVertexRefs (vs : List (Cell V)) (es : List (Cell E)) (ov : Option SVertex) :
    List (Cell V) × List (Cell E) :=
  match ov with
  | some v => (decRef vs v.data, decRefAll es (adjPtrs v.adj))
  | none => (vs, es)

/-- PGraph::add_mut in the store model: the data is a fresh Arc; writing into
a reused slot drops whatever the slot held (the source never removes the
reused slot from the free-slot set, so the slot may be occupied). -/
def sAddMut (g : SGraph) (vs : List (Cell V)) (es : List (Cell E)) (x : V) :
    SGraph × List (Cell V) × List (Cell E) × Id :=
  match g.empties.head? with
  | some i =>
      let pr := alloc vs x
      let dr := dropVertexRefs pr.1 es (g.guts[i]?.getD none)
      ({ g with guts := g.guts.set i (some ⟨⟨i, g.gen⟩, pr.2, []⟩) },
        dr.1, dr.2, ⟨i, g.gen⟩)
  | none =>
      let pr := alloc vs x
      ({ g with guts := g.guts ++ [some ⟨⟨g.guts.length, g.gen⟩, pr.2, []⟩] },
        pr.1, es, ⟨g.guts.length, g.gen⟩)

/-- PGraph::add_all_mut in the store model: iterated add_mut, collecting the
minted Ids in order. -/
def sAddAllMut (g : SGraph) (vs : List (Cell V)) (es : List (Cell E)) :
    List V → SGraph × List (Cell V) × List (Cell E) × List Id
  | [] => (g, vs, es, [])
  | x :: rest =>
      let r := sAddMut g vs es x
      let r2 := sAddAllMut r.1 r.2.1 r.2.2.1 rest
      (r2.1, r2.2.1, r2.2.2.1, r.2.2.2 :: r2.2.2.2)

/-- AdjList::add_edge in the store model: grow to the sink's slot, then
replace the entry there with a fresh Arc; the replaced entry's weight handle
is dropped. -/
def sAddEdge (adj : List (Option (Id × Nat))) (es : List (Cell E)) (sink : Id)
    (w : E) : List (Option (Id × Nat)) × List (Cell E) :=
  let grown := AdjList.grow adj sink.index
  let es1 := match grown[sink.index]? with
    | some (some iq) => decRef es iq.2
    | _ => es
  let pr := alloc es1 w
  (grown.set sink.index (some (sink, pr.2)), pr.1)

/-- PGraph::connect_mut in the store model: panic (no observable write) when
the sink is missing or the source Id is invalid, else add_edge on the source
vertex. -/
def sConnectMut (g : SGraph) (es : List (Cell E)) (source sink : Id) (w : E) :
    SGraph × List (Cell E) :=
  if sHas_vertex g sink then
    match sVertexRaw g source with
    | some v =>
        let pr := sAddEdge v.adj es sink w
        ({ g with guts := g.guts.set source.index (some { v with adj := pr.1 }) },
          pr.2)
    | none => (g, es)
  else (g, es)

/-- PGraph::try_connect_mut in the store model: same writes as connect_mut,
false instead of a panic. -/
def sTryConnectMut (g : SGraph) (es : List (Cell E)) (source sink : Id) (w : E) :
    (SGraph × List (Cell E)) × Bool :=
  if sHas_vertex g sink then
    match sVertexRaw g source with
    | some v =>
        let pr := sAddEdge v.adj es sink w
        (({ g with guts := g.guts.set source.index (some { v with adj := pr.1 }) },
          pr.2), true)
    | none => ((g, es), false)
  else ((g, es), false)

/-- AdjList::disconnect_edge in the store model: take the validated entry,
dropping its weight handle. -/
def sDisconnectEdgeS (adj : List (Option (Id × Nat))) (es : List (Cell E))
    (sink : Id) : List (Option (Id × Nat)) × List (Cell E) :=
  match adj[sink.index]? with
  | some (some iq) =>
      if sink = iq.1 then (adj.set sink.index none, decRef es iq.2) else (adj, es)
  | _ => (adj, es)

/-- PGraph::disconnect_mut in the store model (Index panic on an invalid
source performs no write). -/
def sDisconnectMut (g : SGraph) (es : List (Cell E)) (source sink : Id) :
    SGraph × List (Cell E) :=
  match sVertexRaw g source with
  | some v =>
      let pr := sDisconnectEdgeS v.adj es sink
      ({ g with guts := g.guts.set source.index (some { v with adj := pr.1 }) }, pr.2)
  | none => (g, es)

/-- PGraph::try_disconnect_mut in the store model: same writes, false instead
of a panic. -/
def sTryDisconnectMut (g : SGraph) (es : List (Cell E)) (source sink : Id) :
    SGraph × List (Cell E) :=
  match sVertexRaw g source with
  | some v =>
      let pr := sDisconnectEdgeS v.adj es sink
      ({ g with guts := g.guts.set source.index (some { v with adj := pr.1 }) }, pr.2)
  | none => (g, es)

/-- PGraph::disconnect_all_inc_mut in the store model: clear every validated
edge ending at sink, dropping each weight handle (per-slot form; see the
value-level disconnect_all_inc_mut for the extensional justification). -/
def sDisconnectAllInc (g : SGraph) (es : List (Cell E)) (sink : Id) :
    SGraph × List (Cell E) :=
  ({ g with guts := g.guts.map (fun ov => ov.map (fun v =>
      if (sWeightPtr v sink).isSome then { v with adj := v.adj.set sink.index none }
      else v)) },
    decRefAll es (g.guts.filterMap (fun ov => ov.bind (fun v => sWeightPtr v sink))))

/-- PGraph::remove_mut_no_inc in the store model: clear the slot (dropping the
vertex's handles), record the free slot, disconnect incoming edges. -/
def sRemoveMutNoInc (g : SGraph) (vs : List (Cell V)) (es : List (Cell E))
    (id : Id) : SGraph × List (Cell V) × List (Cell E) :=
  let dr := dropVertexRefs vs es (g.guts[id.index]?.getD none)
  let g1 : SGraph := { g with
    guts := g.guts.set id.index none
    empties := ordInsert id.index g.empties }
  let r := sDisconnectAllInc g1 dr.2 id
  (r.1, dr.1, r.2)

/-- PGraph::remove_mut in the store model; the generation is drawn from the
counter c. -/
def sRemoveMut (g : SGraph) (vs : List (Cell V)) (es : List (Cell E)) (id : Id)
    (c : Nat) : (SGraph × List (Cell V) × List (Cell E)) × Nat :=
  if sHas_vertex g id then
    (({ (sRemoveMutNoInc g vs es id).1 with gen := c },
      (sRemoveMutNoInc g vs es id).2.1, (sRemoveMutNoInc g vs es id).2.2), c + 1)
  else ((g, vs, es), c)

/-- One iteration of PGraph::remove_all_mut_no_inc in the store model. -/
def sRemoveAllStep (acc : (SGraph × List (Cell V) × List (Cell E)) × Bool)
    (id : Id) : (SGraph × List (Cell V) × List (Cell E)) × Bool :=
  if sHas_vertex acc.1.1 id then
    (sRemoveMutNoInc acc.1.1 acc.1.2.1 acc.1.2.2 id, true)
  else acc

/-- PGraph::remove_all_mut in the store model. -/
def sRemoveAllMut (g : SGraph) (vs : List (Cell V)) (es : List (Cell E))
    (l : List Id) (c : Nat) :
    (SGraph × List (Cell V) × List (Cell E)) × Bool × Nat :=
  if (l.foldl sRemoveAllStep ((g, vs, es), false)).2 then
    (({ (l.foldl sRemoveAllStep ((g, vs, es), false)).1.1 with gen := c },
      (l.foldl sRemoveAllStep ((g, vs, es), false)).1.2.1,
      (l.foldl sRemoveAllStep ((g, vs, es), false)).1.2.2), true, c + 1)
  else ((l.foldl sRemoveAllStep ((g, vs, es), false)).1, false, c)

/-- Vertex::data_mut (via PGraph::vertex_data_mut or IndexMut) followed by a
write: Arc::make_mut on the data cell. -/
def sVertexDataMut (g : SGraph) (vs : List (Cell V)) (id : Id) (f : V → V) :
    SGraph × List (Cell V) :=
  match sVertexRaw g id with
  | some v =>
      ({ g with guts := (g.guts.set id.index
          (some { v with data := (makeMut vs v.data f).2 })) },
        (makeMut vs v.data f).1)
  | none => (g, vs)

/-- AdjList::weight_mut (via PGraph::weight_mut or IndexMut) followed by a
write: Arc::make_mut on the validated entry's weight cell. -/
def sWeightMut (g : SGraph) (es : List (Cell E)) (source sink : Id) (f : E → E) :
    SGraph × List (Cell E) :=
  match sVertexRaw g source with
  | some v =>
      match sWeightPtr v sink with
      | some q =>
          ({ g with guts := (g.guts.set source.index
              (some { v with adj := v.adj.set sink.index (some (sink, (makeMut es q f).2)) })) },
            (makeMut es q f).1)
      | none => (g, es)
  | none => (g, es)

/-- Edge::or_insert in the store model: Edge::from checks the sink and binds
the source through IndexMut (three panic arms); make_edge_mut grows the
adjacency row and exposes the raw entry; get_or_insert keeps an existing entry
(without id validation) or inserts a fresh Arc; Arc::get_mut(..).unwrap()
panics exactly when the resulting weight Arc is shared. Returns the graph, the
store and the pointer the caller writes through. -/
def sOrInsert (g : SGraph) (es : List (Cell E)) (source sink : Id) (w : E) :
    Except Panic (SGraph × List (Cell E) × Nat) :=
  if sHas_vertex g sink then
    match g.guts[source.index]? with
    | some (some v) =>
        if source = v.id then
          match (AdjList.grow v.adj sink.index)[sink.index]? with
          | some (some iq) =>
              if countAt es iq.2 = 1 then
                .ok ({ g with guts := (g.guts.set source.index
                    (some { v with adj := AdjList.grow v.adj sink.index })) }, es, iq.2)
              else .error .unwrapNone
          | _ =>
              .ok ({ g with guts := (g.guts.set source.index
                  (some { v with adj := ((AdjList.grow v.adj sink.index).set sink.index
                    (some (sink, (alloc es w).2))) })) },
                (alloc es w).1, (alloc es w).2)
        else .error (.invalidGeneration source)
    | some none => .error (.removedVertex source)
    | none => .error (.otherGraph source)
  else .error (.edgeSinkNotFound sink)

/-- One public in-place mutation, as data. -/
inductive MutOp (V E : Type) where
  | addMut (x : V)
  | addAllMut (xs : List V)
  | connectMut (source sink : Id) (w : E)
  | tryConnectMut (source sink : Id) (w : E)
  | disconnectMut (source sink : Id)
  | tryDisconnectMut (source sink : Id)
  | removeMut (id : Id) (c : Nat)
  | removeAllMut (l : List Id) (c : Nat)
  | vertexDataMut (id : Id) (f : V → V)
  | weightMut (source sink : Id) (f : E → E)

/-- Apply one in-place mutation to a graph over the shared stores. -/
def applyMut (g : SGraph) (vs : List (Cell V)) (es : List (Cell E)) :
    MutOp V E → SGraph × List (Cell V) × List (Cell E)
  | .addMut x =>
      ((sAddMut g vs es x).1, (sAddMut g vs es x).2.1, (sAddMut g vs es x).2.2.1)
  | .addAllMut xs =>
      ((sAddAllMut g vs es xs).1, (sAddAllMut g vs es xs).2.1,
        (sAddAllMut g vs es xs).2.2.1)
  | .connectMut source sink w =>
      ((sConnectMut g es source sink w).1, vs, (sConnectMut g es source sink w).2)
  | .tryConnectMut source sink w =>
      ((sTryConnectMut g es source sink w).1.1, vs,
        (sTryConnectMut g es source sink w).1.2)
  | .disconnectMut source sink =>
      ((sDisconnectMut g es source sink).1, vs, (sDisconnectMut g es source sink).2)
  | .tryDisconnectMut source sink =>
      ((sTryDisconnectMut g es source sink).1, vs,
        (sTryDisconnectMut g es source sink).2)
  | .removeMut id c =>
      ((sRemoveMut g vs es id c).1.1, (sRemoveMut g vs es id c).1.2.1,
        (sRemoveMut g vs es id c).1.2.2)
  | .removeAllMut l c =>
      ((sRemoveAllMut g vs es l c).1.1, (sRemoveAllMut g vs es l c).1.2.1,
        (sRemoveAllMut g vs es l c).1.2.2)
  | .vertexDataMut id f =>
      ((sVertexDataMut g vs id f).1, (sVertexDataMut g vs id f).2, es)
  | .weightMut source sink f =>
      ((sWeightMut g es source sink f).1, vs, (sWeightMut g es source sink f).2)

/-- Self-consistency of a graph against the stores: every cell it references
exists and has a count at least its reference multiplicity. -/
def SelfOK (g : SGraph) (vs : List (Cell V)) (es : List (Cell E)) : Prop :=
  (∀ p ∈ vptrs g, (vptrs g).count p ≤ countAt vs p) ∧
  (∀ p ∈ eptrs g, (eptrs g).count p ≤ countAt es p)

/-- Sharing discipline between two graphs over common stores: every cell has a
count covering the references of both graphs together. -/
def SharedOK (g h : SGraph) (vs : List (Cell V)) (es : List (Cell E)) : Prop :=
  (∀ p ∈ vptrs g ++ vptrs h, (vptrs g).count p + (vptrs h).count p ≤ countAt vs p) ∧
  (∀ p ∈ eptrs g ++ eptrs h, (eptrs g).count p + (eptrs h).count p ≤ countAt es p)

/-- Concrete trace for the sharing claims: empty graph, add 1 and 2, connect
them with weight 7. -/
def shT1 : SGraph × List (Cell Nat) × List (Cell Nat) × Id :=
  sAddMut ⟨[], [], 0⟩ [] [] 1

def shA : Id := ⟨0, 0⟩

def shB : Id := ⟨1, 0⟩

def shT2 : SGraph × List (Cell Nat) × List (Cell Nat) × Id :=
  sAddMut shT1.1 shT1.2.1 shT1.2.2.1 2

def shT3 : SGraph × List (Cell Nat) :=
  sConnectMut shT2.1 shT2.2.2.1 shA shB 7

/-- The shared-weight configuration: the graph above cloned at counter 1. -/
def shCl : SGraph × List (Cell Nat) × List (Cell Nat) × Nat :=
  sClone shT3.1 1 shT2.2.1 shT3.2

/-- Concrete graph for the generational-soundness witness: one vertex with
payload 5 in slot 0, minted at generation 0. -/
def c2G : PGraph Nat Nat := ⟨[some (Vertex.fromId ⟨0, 0⟩ 5)], [], ⟨0⟩⟩

/-- The Id minted for that vertex. -/
def c2A : Id := ⟨0, 0⟩

/-- The process state after PGraph::new (counter 0 → 1) and add_mut 5. -/
def c2S : WState Nat Nat := ⟨1, [c2G], [c2A]⟩

/-! THEOREMS -/

/-- Sanity: the scenario of spec section 8 evaluates as specified. -/
theorem sanity_scenario_weights :
    (trG3.connect_mut trA trB 12).isOk = true ∧
    (trG4.connect_mut trB trC 23).isOk = true ∧
    trG5.weight trA trB = some 12 ∧
    trG5.weight trA trC = none ∧
    trG5.has_edge trC trA = false := by
  decide

/-- Sanity: the removal scenario of spec section 8; the freed slot is reused
with a fresh generation and the old Id stays dead. -/
theorem sanity_scenario_remove :
    trRemB.has_vertex trB = false ∧
    trRemB.has_edge trA trB = false ∧
    (trNew9.2).index = trB.index ∧
    (trNew9.2).generation ≠ trB.generation ∧
    (trNew9.1).vertex trB = none := by
  decide

/-- C1: on the reachable graph obtained by add, remove, add, the reused slot 0
is occupied by a live vertex yet still listed in the free-slot set, and it is
even the slot the next insertion would pick; the source never removes a reused
slot from the free-slot set, violating the claimed invariant. -/
theorem C1_empties_contains_occupied_slot :
    c1B.index = 0 ∧ c1G3.has_vertex c1B = true ∧ (0 ∈ c1G3.empties) ∧
    c1G3.find_empty = some 0 := by
  decide

/-- C3: on a reachable graph with one hole (slot 0) below the live vertex in
slot 1, the source's to_index returns slot plus the hole count (2) while the
specified value is slot minus the hole count (0); from_index is the inverse of
the specified version, and composing the source's to_index with from_index
falls off the end of the vertex sequence (a panic). -/
theorem C3_to_index_adds_hole_count :
    c3G.has_vertex c3B = true ∧ c3B.index = 1 ∧ c3G.empties = [0] ∧
    c3G.to_index c3B = 2 ∧ c3G.to_index_spec c3B = 0 ∧
    c3G.from_index 0 = some c3B ∧ c3G.from_index (c3G.to_index c3B) = none := by
  decide

/-- C7: the free-slot defect leaves a reachable graph holding an adjacency
entry whose sink Id is dead (its slot was silently re-occupied under a newer
generation); recreate replays that entry through the old-to-new Id map, whose
lookup misses, so recreate panics instead of returning a compacted graph. -/
theorem C7_recreate_panics_on_reachable_graph :
    c7G8.weight c7A c7C = some 99 ∧ c7G8.has_vertex c7C = false ∧
    (c7G8.recreate 3).1 = none := by
  decide

/-- C5 counterexample: the same dead sink Id produces the identical
sink-not-found panic value from connect_mut both when its slot holds a vertex
of a different generation (stale) and when its slot was never allocated, so
the connect_mut panic message does not distinguish the two cases; the indexing
panics (shown alongside) are the ones that would. -/
theorem C5_counterexample_same_message :
    c5Stale.indexVertex c5B = .error (.invalidGeneration c5B) ∧
    c5Never.guts[c5B.index]? = none ∧
    c5Never.indexVertex c5B = .error (.otherGraph c5B) ∧
    c5Stale.connect_mut c5A c5B 7 = .error (.sinkNotFound c5B) ∧
    c5Never.connect_mut c5A2 c5B 7 = .error (.sinkNotFound c5B) := by
  decide

/-- C6 counterexample: a single vertex with an edge to itself satisfies the
claim's premises with a equal to b, yet after remove_mut the vertex a is gone,
falsifying the conjunct that a remains live. -/
theorem C6_counterexample_self_edge :
    c6G.has_vertex c6A = true ∧ c6G.has_edge c6A c6A = true ∧
    c6G2.has_vertex c6A = false := by
  decide

/-! Supporting lemmas about the query surface. -/

theorem vertex_eq_some {g : PGraph V E} {a : Id} {v : Vertex V E} :
    g.vertex a = some v ↔ g.guts[a.index]? = some (some v) ∧ v.id = a := by
  unfold PGraph.vertex
  cases h : g.guts[a.index]? with
  | none => simp
  | some vo =>
    cases vo with
    | none => simp
    | some w =>
      simp only [Vertex.same_id, Option.some.injEq]
      by_cases hw : a = w.id
      · simp [hw]
        exact fun h => by rw [← h]
      · simp [hw]
        intro hvw
        exact fun hia => absurd (hvw ▸ hia.symm) hw

theorem has_vertex_iff {g : PGraph V E} {a : Id} :
    g.has_vertex a = true ↔ ∃ v, g.guts[a.index]? = some (some v) ∧ v.id = a := by
  unfold PGraph.has_vertex
  rw [Option.isSome_iff_exists]
  constructor
  · rintro ⟨v, hv⟩
    exact ⟨v, vertex_eq_some.mp hv⟩
  · rintro ⟨v, hv⟩
    exact ⟨v, vertex_eq_some.mpr hv⟩

theorem live_index_inj {g : PGraph V E} {a b : Id}
    (ha : g.has_vertex a = true) (hb : g.has_vertex b = true)
    (hidx : a.index = b.index) : a = b := by
  obtain ⟨v, hv, hid⟩ := has_vertex_iff.mp ha
  obtain ⟨w, hw, hid2⟩ := has_vertex_iff.mp hb
  rw [hidx] at hv
  rw [hv] at hw
  cases hw
  rw [← hid, ← hid2]

theorem has_edge_eq_isSome (g : PGraph V E) (s t : Id) :
    g.has_edge s t = (g.weight s t).isSome := by
  unfold PGraph.has_edge PGraph.weight
  cases g.vertex s with
  | none => rfl
  | some v => rfl

/-! Supporting lemmas about edge removal at the adjacency level. -/

theorem adj_disconnect_weight_self (a : AdjList E) (s : Id) :
    ((a.disconnect_edge s).1).weight s = none := by
  cases h : a.edges[s.index]? with
  | none => simp [AdjList.disconnect_edge, AdjList.weight, h]
  | some eo =>
    cases eo with
    | none => simp [AdjList.disconnect_edge, AdjList.weight, h]
    | some p =>
      obtain ⟨pi, pw⟩ := p
      by_cases hs : s = pi
      · subst hs
        obtain ⟨hlt, -⟩ := List.getElem?_eq_some_iff.mp h
        simp [AdjList.disconnect_edge, AdjList.weight, h, List.getElem?_set_self hlt]
      · simp [AdjList.disconnect_edge, AdjList.weight, h, hs]

theorem adj_disconnect_weight_other (a : AdjList E) {s t : Id} (hts : t ≠ s) :
    ((a.disconnect_edge s).1).weight t = a.weight t := by
  cases h : a.edges[s.index]? with
  | none => simp [AdjList.disconnect_edge, h]
  | some eo =>
    cases eo with
    | none => simp [AdjList.disconnect_edge, h]
    | some p =>
      obtain ⟨pi, pw⟩ := p
      by_cases hs : s = pi
      · subst hs
        by_cases hidx : t.index = s.index
        · obtain ⟨hlt, -⟩ := List.getElem?_eq_some_iff.mp h
          simp [AdjList.disconnect_edge, AdjList.weight, h, hidx,
            List.getElem?_set_self hlt, hts]
        · simp [AdjList.disconnect_edge, AdjList.weight, h,
            List.getElem?_set_ne (fun hc => hidx hc.symm)]
      · simp [AdjList.disconnect_edge, h, hs]

theorem vertex_disconnect_id (v : Vertex V E) (s : Id) :
    ((v.disconnect s).1).id = v.id := rfl

theorem vertex_disconnect_weight_self (v : Vertex V E) (s : Id) :
    ((v.disconnect s).1).weight s = none :=
  adj_disconnect_weight_self v.adj s

theorem vertex_disconnect_weight_other (v : Vertex V E) {s t : Id} (hts : t ≠ s) :
    ((v.disconnect s).1).weight t = v.weight t :=
  adj_disconnect_weight_other v.adj hts

/-! Supporting lemmas about vertex removal at the graph level. -/

theorem rmni_guts (g : PGraph V E) (id : Id) :
    (g.remove_mut_no_inc id).guts =
      (g.guts.set id.index none).map (Option.map (fun v => (v.disconnect id).1)) := rfl

theorem rmni_vertex (g : PGraph V E) (b y : Id) :
    (g.remove_mut_no_inc b).vertex y =
      match (g.guts.set b.index none)[y.index]? with
      | some (some v) => if y = v.id then some ((v.disconnect b).1) else none
      | _ => none := by
  unfold PGraph.vertex
  rw [show (g.remove_mut_no_inc b).guts =
      (g.guts.set b.index none).map (Option.map (fun v => (v.disconnect b).1)) from rfl]
  rw [List.getElem?_map]
  cases (g.guts.set b.index none)[y.index]? with
  | none => rfl
  | some vo =>
    cases vo with
    | none => rfl
    | some v =>
      by_cases hy : y = v.id
      · simp [Vertex.same_id, vertex_disconnect_id, hy]
      · simp [Vertex.same_id, vertex_disconnect_id, hy]

theorem remove_mut_graph {g : PGraph V E} {b : Id} {c : Nat}
    (hb : g.has_vertex b = true) :
    ((g.remove_mut b c).1).1 = { g.remove_mut_no_inc b with idgen := ⟨c⟩ } := by
  unfold PGraph.remove_mut
  rw [hb]
  rfl

theorem remove_mut_vertex {g : PGraph V E} {b : Id} {c : Nat}
    (hb : g.has_vertex b = true) (y : Id) :
    (((g.remove_mut b c).1).1).vertex y =
      match (g.guts.set b.index none)[y.index]? with
      | some (some v) => if y = v.id then some ((v.disconnect b).1) else none
      | _ => none := by
  rw [remove_mut_graph hb]
  rw [show ({ g.remove_mut_no_inc b with idgen := (⟨c⟩ : IdGen) } : PGraph V E).vertex y =
      (g.remove_mut_no_inc b).vertex y from rfl]
  exact rmni_vertex g b y

theorem is_connected_eq (v : Vertex V E) (t : Id) :
    v.is_connected t = (v.weight t).isSome := rfl

theorem set_getElem?_self {α : Type _} :
    ∀ (l : List α) (i : Nat) (a : α), l[i]? = some a → l.set i a = l
  | [], _, _, h => by simp at h
  | x :: xs, 0, a, h => by
      simp only [List.getElem?_cons_zero, Option.some.injEq] at h
      subst h
      rfl
  | x :: xs, i + 1, a, h => by
      simp only [List.getElem?_cons_succ] at h
      simp only [List.set_cons_succ, List.cons.injEq, true_and]
      exact set_getElem?_self xs i a h

/-- C6 amended: the removal cascade as claimed, for two DISTINCT live vertices
a and b: after remove_mut of b, no edge ends at b, a is still live, and every
live vertex other than b stays live. -/
theorem C6_removal_cascade (g : PGraph V E) (a b : Id) (c : Nat)
    (hab : a ≠ b) (ha : g.has_vertex a = true) (hb : g.has_vertex b = true)
    (_hedge : g.has_edge a b = true) :
    (((g.remove_mut b c).1).1).has_edge a b = false ∧
    (((g.remove_mut b c).1).1).has_vertex a = true ∧
    (∀ x : Id, (((g.remove_mut b c).1).1).has_edge x b = false) ∧
    (∀ y : Id, y ≠ b → g.has_vertex y = true →
      (((g.remove_mut b c).1).1).has_vertex y = true) := by
  have hlive : ∀ y : Id, y ≠ b → g.has_vertex y = true →
      (((g.remove_mut b c).1).1).has_vertex y = true := by
    intro y hyb hy
    have hidx : y.index ≠ b.index := fun h => hyb (live_index_inj hy hb h)
    obtain ⟨v, hv, hid⟩ := has_vertex_iff.mp hy
    unfold PGraph.has_vertex
    rw [remove_mut_vertex hb y, List.getElem?_set_ne (fun hc => hidx hc.symm), hv]
    subst hid
    simp
  have hnoedge : ∀ x : Id, (((g.remove_mut b c).1).1).has_edge x b = false := by
    intro x
    unfold PGraph.has_edge
    rw [remove_mut_vertex hb x]
    cases hx : (g.guts.set b.index none)[x.index]? with
    | none => rfl
    | some vo =>
      cases vo with
      | none => rfl
      | some v =>
        by_cases hxv : x = v.id
        · simp [hxv, is_connected_eq, vertex_disconnect_weight_self]
        · simp [hxv]
  exact ⟨hnoedge a, hlive a hab ha, hnoedge, hlive⟩

/-- C6 witness: the cascade theorem applied to the concrete scenario graph,
removing vertex b while a keeps its edge source role. -/
theorem C6_witness :
    ((trG5.remove_mut trB 1).1.1).has_edge trA trB = false ∧
    ((trG5.remove_mut trB 1).1.1).has_vertex trA = true := by
  have h := C6_removal_cascade trG5 trA trB 1 (by decide) (by decide) (by decide) (by decide)
  exact ⟨h.1, h.2.1⟩

/-- C5 amended: connect_mut panics with the single sink-not-found message for
every dead sink, whether never allocated or stale; a dead source with a live
sink instead surfaces as one of the three distinguished indexing panics. -/
theorem C5_connect_mut_panic_shape (g : PGraph V E) (s t : Id) (w : E) :
    (g.has_vertex t = false → g.connect_mut s t w = .error (.sinkNotFound t)) ∧
    (g.has_vertex t = true → g.has_vertex s = false →
      ∃ p, g.connect_mut s t w = .error p ∧ p ≠ .sinkNotFound t ∧
        (p = .invalidGeneration s ∨ p = .removedVertex s ∨ p = .otherGraph s)) := by
  constructor
  · intro ht
    unfold PGraph.connect_mut
    rw [ht]
    rfl
  · intro ht hs
    unfold PGraph.connect_mut
    rw [ht, if_pos rfl]
    unfold PGraph.updateVertex PGraph.indexVertex
    cases hgut : g.guts[s.index]? with
    | none => exact ⟨.otherGraph s, rfl, by simp, Or.inr (Or.inr rfl)⟩
    | some vo =>
      cases vo with
      | none => exact ⟨.removedVertex s, rfl, by simp, Or.inr (Or.inl rfl)⟩
      | some v =>
        have hsi : v.same_id s = false := by
          have hvn : g.vertex s = none := by
            cases hv : g.vertex s with
            | none => rfl
            | some u =>
              unfold PGraph.has_vertex at hs
              rw [hv] at hs
              simp at hs
          unfold PGraph.vertex at hvn
          rw [hgut] at hvn
          have hvn2 : (if v.same_id s = true then (some v : Option (Vertex V E)) else none)
              = none := hvn
          cases hsi2 : v.same_id s with
          | false => rfl
          | true =>
            rw [hsi2] at hvn2
            simp at hvn2
        refine ⟨.invalidGeneration s, ?_, by simp, Or.inl rfl⟩
        simp [hsi, Except.map]

/-- C5 witness: the amended panic shapes at the concrete graphs, with the dead
Id as sink (uniform sink-not-found) and as source (distinguished indexing
panic). -/
theorem C5_witness :
    c5Stale.connect_mut c5A c5B 7 = .error (.sinkNotFound c5B) ∧
    (∃ p, c5Stale.connect_mut c5B c5A 7 = .error p ∧ p ≠ .sinkNotFound c5A ∧
      (p = .invalidGeneration c5B ∨ p = .removedVertex c5B ∨ p = .otherGraph c5B)) :=
  ⟨(C5_connect_mut_panic_shape c5Stale c5A c5B 7).1 (by decide),
    (C5_connect_mut_panic_shape c5Stale c5B c5A 7).2 (by decide) (by decide)⟩

/-! Supporting lemmas about weight updates. -/

theorem adj_update_weight_none {a : AdjList E} {t : Id} (h : a.weight t = none) (f : E → E) :
    a.update_weight t f = a := by
  cases hg : a.edges[t.index]? with
  | none => simp [AdjList.update_weight, hg]
  | some eo =>
    cases eo with
    | none => simp [AdjList.update_weight, hg]
    | some p =>
      obtain ⟨pi, pw⟩ := p
      by_cases hti : t = pi
      · exfalso
        subst hti
        unfold AdjList.weight at h
        rw [hg] at h
        simp at h
      · simp [AdjList.update_weight, hg, hti]

theorem adj_update_weight_self {a : AdjList E} {t : Id} {w : E}
    (h : a.weight t = some w) (f : E → E) :
    (a.update_weight t f).weight t = some (f w) := by
  cases hg : a.edges[t.index]? with
  | none => unfold AdjList.weight at h; rw [hg] at h; simp at h
  | some eo =>
    cases eo with
    | none => unfold AdjList.weight at h; rw [hg] at h; simp at h
    | some p =>
      obtain ⟨pi, pw⟩ := p
      unfold AdjList.weight at h
      rw [hg] at h
      by_cases hti : t = pi
      · subst hti
        simp at h
        subst h
        obtain ⟨hlt, -⟩ := List.getElem?_eq_some_iff.mp hg
        simp [AdjList.update_weight, AdjList.weight, hg, List.getElem?_set_self hlt]
      · simp [hti] at h

theorem adj_update_weight_other {a : AdjList E} {t q : Id} {w : E}
    (_h : a.weight t = some w) (f : E → E) (hq : q ≠ t) :
    (a.update_weight t f).weight q = a.weight q := by
  cases hg : a.edges[t.index]? with
  | none => simp [AdjList.update_weight, hg]
  | some eo =>
    cases eo with
    | none => simp [AdjList.update_weight, hg]
    | some p =>
      obtain ⟨pi, pw⟩ := p
      by_cases hti : t = pi
      · subst hti
        obtain ⟨hlt, -⟩ := List.getElem?_eq_some_iff.mp hg
        by_cases hidx : q.index = t.index
        · have hqi : ¬ q = t := hq
          simp [AdjList.update_weight, hg, AdjList.weight, hidx,
            List.getElem?_set_self hlt, hqi]
        · simp [AdjList.update_weight, hg, AdjList.weight,
            List.getElem?_set_ne (fun hc => hidx hc.symm)]
      · simp [AdjList.update_weight, hg, hti]

theorem vertex_set_same_id {g : PGraph V E} {s : Id} {v : Vertex V E} (v2 : Vertex V E)
    (hgut : g.guts[s.index]? = some (some v)) (hid2 : v2.id = v.id) (y : Id) :
    ({ g with guts := g.guts.set s.index (some v2) } : PGraph V E).vertex y =
      if y.index = s.index then (if y = v.id then some v2 else none) else g.vertex y := by
  obtain ⟨hlt, -⟩ := List.getElem?_eq_some_iff.mp hgut
  unfold PGraph.vertex
  by_cases hidx : y.index = s.index
  · rw [if_pos hidx, hidx, List.getElem?_set_self hlt]
    simp [Vertex.same_id, hid2]
  · rw [if_neg hidx, List.getElem?_set_ne (fun hc => hidx hc.symm)]

theorem updateVertex_live {g : PGraph V E} {s : Id} {v : Vertex V E}
    (hgut : g.guts[s.index]? = some (some v)) (hid : v.id = s)
    (f2 : Vertex V E → Vertex V E) :
    g.updateVertex s f2 =
      .ok { g with guts := g.guts.set s.index (some (f2 v)) } := by
  unfold PGraph.updateVertex PGraph.indexVertex
  rw [hgut]
  simp [Vertex.same_id, hid, Except.map]

/-- C9: the and_modify entry call on live endpoints applies the function to an
existing weight exactly once in place, changing nothing else, and does nothing
at all (graph returned unchanged, so also no edge created) when the edge is
absent. -/
theorem C9_and_modify (g : PGraph V E) (s t : Id) (f : E → E)
    (hs : g.has_vertex s = true) (ht : g.has_vertex t = true) :
    (g.has_edge s t = false → g.edge_and_modify s t f = .ok g) ∧
    (∀ w, g.weight s t = some w →
      ∃ g2, g.edge_and_modify s t f = .ok g2 ∧ g2.weight s t = some (f w) ∧
        (∀ p q : Id, p ≠ s ∨ q ≠ t → g2.weight p q = g.weight p q) ∧
        (∀ p q : Id, g2.has_edge p q = g.has_edge p q) ∧
        (∀ y : Id, g2.has_vertex y = g.has_vertex y)) := by
  obtain ⟨v, hgut, hid⟩ := has_vertex_iff.mp hs
  have hvs : g.vertex s = some v := vertex_eq_some.mpr ⟨hgut, hid⟩
  constructor
  · intro hne
    have hwt : v.weight t = none := by
      unfold PGraph.has_edge at hne
      rw [hvs] at hne
      have hne2 : v.is_connected t = false := hne
      rw [is_connected_eq] at hne2
      cases hvw : v.weight t with
      | none => rfl
      | some w => rw [hvw] at hne2; simp at hne2
    unfold PGraph.edge_and_modify
    rw [ht, if_pos rfl, updateVertex_live hgut hid]
    have hvid : v.update_weight t f = v := by
      unfold Vertex.update_weight
      rw [adj_update_weight_none hwt]
    rw [hvid, set_getElem?_self _ _ _ hgut]
  · intro w hw
    have hwt : v.weight t = some w := by
      unfold PGraph.weight at hw
      rw [hvs] at hw
      exact hw
    obtain ⟨hlt, -⟩ := List.getElem?_eq_some_iff.mp hgut
    refine ⟨{ g with guts := g.guts.set s.index (some (v.update_weight t f)) }, ?_, ?_, ?_, ?_, ?_⟩
    · unfold PGraph.edge_and_modify
      rw [ht, if_pos rfl, updateVertex_live hgut hid]
    · unfold PGraph.weight
      rw [vertex_set_same_id (v.update_weight t f) hgut rfl s]
      rw [if_pos rfl, if_pos hid.symm]
      exact adj_update_weight_self hwt f
    · intro p q hpq
      unfold PGraph.weight
      rw [vertex_set_same_id (v.update_weight t f) hgut rfl p]
      by_cases hidx : p.index = s.index
      · rw [if_pos hidx]
        by_cases hpv : p = v.id
        · have hps : p = s := hpv.trans hid
          have hqt : q ≠ t := by
            cases hpq with
            | inl h => exact absurd hps h
            | inr h => exact h
          rw [if_pos hpv, hps, hvs]
          exact adj_update_weight_other hwt f hqt
        · rw [if_neg hpv]
          have : g.vertex p = none := by
            unfold PGraph.vertex
            rw [show p.index = s.index from hidx, hgut]
            simp [Vertex.same_id, hpv]
          rw [this]
      · rw [if_neg hidx]
    · intro p q
      rw [has_edge_eq_isSome, has_edge_eq_isSome]
      by_cases hps : p = s
      · by_cases hqt : q = t
        · subst hps; subst hqt
          have h1 : ({ g with guts := g.guts.set p.index (some (v.update_weight q f)) } :
              PGraph V E).weight p q = some (f w) := by
            unfold PGraph.weight
            rw [vertex_set_same_id (v.update_weight q f) hgut rfl p, if_pos rfl, if_pos hid.symm]
            exact adj_update_weight_self hwt f
          rw [h1, hw]
          rfl
        · have hfr : ({ g with guts := g.guts.set s.index (some (v.update_weight t f)) } :
              PGraph V E).weight p q = g.weight p q := by
            unfold PGraph.weight
            rw [vertex_set_same_id (v.update_weight t f) hgut rfl p]
            by_cases hidx : p.index = s.index
            · rw [if_pos hidx]
              by_cases hpv : p = v.id
              · rw [if_pos hpv, show p = s from hpv.trans hid, hvs]
                exact adj_update_weight_other hwt f hqt
              · rw [if_neg hpv]
                have : g.vertex p = none := by
                  unfold PGraph.vertex
                  rw [hidx, hgut]
                  simp [Vertex.same_id, hpv]
                rw [this]
            · rw [if_neg hidx]
          rw [hfr]
      · have hfr : ({ g with guts := g.guts.set s.index (some (v.update_weight t f)) } :
            PGraph V E).weight p q = g.weight p q := by
          unfold PGraph.weight
          rw [vertex_set_same_id (v.update_weight t f) hgut rfl p]
          by_cases hidx : p.index = s.index
          · rw [if_pos hidx]
            by_cases hpv : p = v.id
            · exact absurd (hpv.trans hid) hps
            · rw [if_neg hpv]
              have : g.vertex p = none := by
                unfold PGraph.vertex
                rw [hidx, hgut]
                simp [Vertex.same_id, hpv]
              rw [this]
          · rw [if_neg hidx]
        rw [hfr]
    · intro y
      unfold PGraph.has_vertex
      rw [vertex_set_same_id (v.update_weight t f) hgut rfl y]
      by_cases hidx : y.index = s.index
      · rw [if_pos hidx]
        have hgv : g.vertex y = if y = v.id then some v else none := by
          unfold PGraph.vertex
          rw [hidx, hgut]
          by_cases hyv : y = v.id
          · simp [Vertex.same_id, hyv]
          · simp [Vertex.same_id, hyv]
        rw [hgv]
        by_cases hyv : y = v.id
        · rw [if_pos hyv, if_pos hyv]
          rfl
        · rw [if_neg hyv, if_neg hyv]
      · rw [if_neg hidx]

/-- C9 witness: and_modify at the scenario graph, once on the absent pair (no
change, no creation) and once on the existing edge weight 12, updated to 13. -/
theorem C9_witness :
    trG5.edge_and_modify trA trC (fun x => x + 1) = .ok trG5 ∧
    (∃ g2, trG5.edge_and_modify trA trB (fun x => x + 1) = .ok g2 ∧
      g2.weight trA trB = some 13) := by
  constructor
  · exact (C9_and_modify trG5 trA trC (fun x => x + 1) (by decide) (by decide)).1 (by decide)
  · obtain ⟨g2, heq, hwv, -, -, -⟩ :=
      (C9_and_modify trG5 trA trB (fun x => x + 1) (by decide) (by decide)).2 12 (by decide)
    exact ⟨g2, heq, hwv⟩

/-- C10: when source and sink are both live but no edge joins them, indexing
by the pair panics through the unwrap on the absent weight, a panic distinct
from all three vertex-liveness panic messages, while the checked weight query
returns the absent value. -/
theorem C10_index_pair_missing_edge (g : PGraph V E) (s t : Id)
    (hs : g.has_vertex s = true) (_ht : g.has_vertex t = true)
    (he : g.has_edge s t = false) :
    g.indexEdge s t = .error .unwrapNone ∧ g.weight s t = none ∧
    (∀ i : Id, Panic.unwrapNone ≠ Panic.invalidGeneration i ∧
      Panic.unwrapNone ≠ Panic.removedVertex i ∧ Panic.unwrapNone ≠ Panic.otherGraph i) := by
  obtain ⟨v, hgut, hid⟩ := has_vertex_iff.mp hs
  have hvs : g.vertex s = some v := vertex_eq_some.mpr ⟨hgut, hid⟩
  have hwt : v.weight t = none := by
    unfold PGraph.has_edge at he
    rw [hvs] at he
    have he2 : v.is_connected t = false := he
    rw [is_connected_eq] at he2
    cases hvw : v.weight t with
    | none => rfl
    | some w => rw [hvw] at he2; simp at he2
  refine ⟨?_, ?_, fun i => ⟨by simp, by simp, by simp⟩⟩
  · unfold PGraph.indexEdge PGraph.indexVertex
    rw [hgut]
    simp only [Vertex.same_id, hid]
    show (Except.ok v).bind (fun u => u.adj.indexE t) = Except.error Panic.unwrapNone
    show v.adj.indexE t = .error .unwrapNone
    unfold AdjList.indexE
    rw [show v.adj.weight t = none from hwt]
  · unfold PGraph.weight
    rw [hvs]
    exact hwt

/-- C10 witness: the pair-indexing panic and the checked query at the concrete
scenario graph, between live vertices with no connecting edge. -/
theorem C10_witness :
    trG5.indexEdge trA trC = .error .unwrapNone ∧ trG5.weight trA trC = none := by
  have h := C10_index_pair_missing_edge trG5 trA trC (by decide) (by decide) (by decide)
  exact ⟨h.1, h.2.1⟩

/-! Operation lemmas feeding the generational invariant. -/

theorem add_mut_eq_reuse {g : PGraph V E} {i : Nat} (x : V) (hf : g.find_empty = some i) :
    g.add_mut x =
      ({ g with guts := g.guts.set i (some (Vertex.fromId ⟨i, g.idgen.current_gen⟩ x)) },
        ⟨i, g.idgen.current_gen⟩) := by
  unfold PGraph.add_mut
  rw [hf]
  rfl

theorem add_mut_eq_append {g : PGraph V E} (x : V) (hf : g.find_empty = none) :
    g.add_mut x =
      ({ g with
          guts := g.guts ++ [some (Vertex.fromId ⟨g.guts.length, g.idgen.current_gen⟩ x)] },
        ⟨g.guts.length, g.idgen.current_gen⟩) := by
  unfold PGraph.add_mut
  rw [hf]
  rfl

theorem add_mut_id_gen (g : PGraph V E) (x : V) :
    ((g.add_mut x).2).generation = g.idgen.current_gen := by
  cases hf : g.find_empty with
  | some i => rw [add_mut_eq_reuse x hf]
  | none => rw [add_mut_eq_append x hf]

theorem add_mut_idgen (g : PGraph V E) (x : V) :
    ((g.add_mut x).1).idgen = g.idgen := by
  cases hf : g.find_empty with
  | some i => rw [add_mut_eq_reuse x hf]
  | none => rw [add_mut_eq_append x hf]

theorem add_mut_empties (g : PGraph V E) (x : V) :
    ((g.add_mut x).1).empties = g.empties := by
  cases hf : g.find_empty with
  | some i => rw [add_mut_eq_reuse x hf]
  | none => rw [add_mut_eq_append x hf]

theorem add_mut_len (g : PGraph V E) (x : V) :
    g.guts.length ≤ ((g.add_mut x).1).guts.length := by
  cases hf : g.find_empty with
  | some i => rw [add_mut_eq_reuse x hf]; simp
  | none => rw [add_mut_eq_append x hf]; simp

theorem add_mut_has_new {g : PGraph V E} (hb : emptiesBounded g) (x : V) :
    ((g.add_mut x).1).has_vertex ((g.add_mut x).2) = true := by
  cases hf : g.find_empty with
  | some i =>
    have hf2 : g.empties.head? = some i := hf
    have hmem : i ∈ g.empties := List.mem_of_mem_head? (Option.mem_def.mpr hf2)
    have hlt : i < g.guts.length := hb i hmem
    rw [add_mut_eq_reuse x hf, has_vertex_iff]
    exact ⟨Vertex.fromId ⟨i, g.idgen.current_gen⟩ x, List.getElem?_set_self hlt, rfl⟩
  | none =>
    rw [add_mut_eq_append x hf, has_vertex_iff]
    exact ⟨Vertex.fromId ⟨g.guts.length, g.idgen.current_gen⟩ x,
      List.getElem?_concat_length _ _, rfl⟩

theorem add_mut_preserves_live {g : PGraph V E} {a : Id} (x : V)
    (hgen : a.generation = g.idgen.current_gen) (ha : g.has_vertex a = true) :
    ((g.add_mut x).1).has_vertex a = true := by
  obtain ⟨v, hv, hid⟩ := has_vertex_iff.mp ha
  have hlt : a.index < g.guts.length := (List.getElem?_eq_some_iff.mp hv).1
  cases hf : g.find_empty with
  | some i =>
    rw [add_mut_eq_reuse x hf, has_vertex_iff]
    by_cases hia : a.index = i
    · refine ⟨Vertex.fromId ⟨i, g.idgen.current_gen⟩ x, ?_, ?_⟩
      · rw [← hia]
        exact List.getElem?_set_self hlt
      · show (⟨i, g.idgen.current_gen⟩ : Id) = a
        obtain ⟨ai, ag⟩ := a
        rw [← hia, ← hgen]
    · exact ⟨v, by rw [List.getElem?_set_ne (fun hc => hia hc.symm)]; exact hv, hid⟩
  | none =>
    rw [add_mut_eq_append x hf, has_vertex_iff]
    exact ⟨v, by rw [List.getElem?_append_left hlt]; exact hv, hid⟩

theorem remove_mut_not_live {g : PGraph V E} {id : Id} {c : Nat}
    (h : g.has_vertex id = false) : g.remove_mut id c = ((g, false), c) := by
  unfold PGraph.remove_mut
  rw [h]
  rfl

theorem rmni_idgen (g : PGraph V E) (id : Id) :
    (g.remove_mut_no_inc id).idgen = g.idgen := rfl

theorem rmni_empties (g : PGraph V E) (id : Id) :
    (g.remove_mut_no_inc id).empties = ordInsert id.index g.empties := rfl

theorem rmni_len (g : PGraph V E) (id : Id) :
    (g.remove_mut_no_inc id).guts.length = g.guts.length := by
  rw [rmni_guts]
  simp

theorem ordInsert_mem (x : Nat) : ∀ (l : List Nat) (j : Nat),
    j ∈ ordInsert x l ↔ j = x ∨ j ∈ l
  | [], j => by simp [ordInsert]
  | y :: ys, j => by
      unfold ordInsert
      by_cases h1 : x < y
      · simp only [if_pos h1, List.mem_cons]
      · by_cases h2 : x = y
        · simp only [if_neg h1, if_pos h2, List.mem_cons]
          subst h2
          tauto
        · simp only [if_neg h1, if_neg h2, List.mem_cons, ordInsert_mem x ys j]
          tauto

theorem rmni_bounded {g : PGraph V E} {id : Id} (hb : emptiesBounded g)
    (hl : g.has_vertex id = true) : emptiesBounded (g.remove_mut_no_inc id) := by
  intro j hj
  rw [rmni_empties] at hj
  rw [rmni_len]
  rcases (ordInsert_mem _ _ _).mp hj with h | h
  · subst h
    obtain ⟨v, hv, -⟩ := has_vertex_iff.mp hl
    exact (List.getElem?_eq_some_iff.mp hv).1
  · exact hb j h

theorem trmni_not_live {g : PGraph V E} {id : Id} (h : g.has_vertex id = false) :
    g.try_remove_mut_no_inc id = (g, false) := by
  unfold PGraph.try_remove_mut_no_inc
  rw [h]
  rfl

theorem trmni_live {g : PGraph V E} {id : Id} (h : g.has_vertex id = true) :
    g.try_remove_mut_no_inc id = (g.remove_mut_no_inc id, true) := by
  unfold PGraph.try_remove_mut_no_inc
  rw [h]
  rfl

theorem trmni_idgen (g : PGraph V E) (id : Id) :
    (g.try_remove_mut_no_inc id).1.idgen = g.idgen := by
  cases h : g.has_vertex id with
  | true => rw [trmni_live h, rmni_idgen]
  | false => rw [trmni_not_live h]

theorem trmni_bounded {g : PGraph V E} (id : Id) (hb : emptiesBounded g) :
    emptiesBounded (g.try_remove_mut_no_inc id).1 := by
  cases h : g.has_vertex id with
  | true => rw [trmni_live h]; exact rmni_bounded hb h
  | false => rw [trmni_not_live h]; exact hb

theorem removeAllStep_eq (p : PGraph V E × Bool) (id : Id) :
    PGraph.removeAllStep p id =
      ((p.1.try_remove_mut_no_inc id).1, (p.1.try_remove_mut_no_inc id).2 || p.2) := rfl

theorem ranmi_foldl_idgen : ∀ (l : List Id) (p : PGraph V E × Bool),
    (l.foldl PGraph.removeAllStep p).1.idgen = p.1.idgen
  | [], _ => rfl
  | id :: ids, p => by
      rw [List.foldl_cons, ranmi_foldl_idgen ids, removeAllStep_eq]
      exact trmni_idgen p.1 id

theorem ranmi_foldl_bounded : ∀ (l : List Id) (p : PGraph V E × Bool),
    emptiesBounded p.1 → emptiesBounded (l.foldl PGraph.removeAllStep p).1
  | [], _, hb => hb
  | id :: ids, p, hb => by
      rw [List.foldl_cons]
      refine ranmi_foldl_bounded ids _ ?_
      rw [removeAllStep_eq]
      exact trmni_bounded id hb

theorem ranmi_foldl_true : ∀ (l : List Id) (g : PGraph V E),
    (l.foldl PGraph.removeAllStep (g, true)).2 = true
  | [], _ => rfl
  | id :: ids, g => by
      rw [List.foldl_cons, removeAllStep_eq, Bool.or_true]
      exact ranmi_foldl_true ids _

theorem ranmi_false : ∀ (l : List Id) (g : PGraph V E),
    (g.remove_all_mut_no_inc l).2 = false →
    (g.remove_all_mut_no_inc l).1 = g ∧ ∀ id ∈ l, g.has_vertex id = false
  | [], g, _ => ⟨rfl, by simp⟩
  | id :: ids, g, hch => by
      unfold PGraph.remove_all_mut_no_inc at hch ⊢
      rw [List.foldl_cons] at hch ⊢
      cases hl : g.has_vertex id with
      | true =>
        exfalso
        rw [removeAllStep_eq, trmni_live hl, Bool.or_false] at hch
        have hT := ranmi_foldl_true (V := V) (E := E) ids (g.remove_mut_no_inc id)
        rw [hch] at hT
        exact Bool.false_ne_true hT
      | false =>
        rw [removeAllStep_eq, trmni_not_live hl] at hch ⊢
        have hrec := ranmi_false ids g hch
        refine ⟨hrec.1, ?_⟩
        intro i hi
        rcases List.mem_cons.mp hi with h | h
        · rw [h]; exact hl
        · exact hrec.2 i h

theorem remove_all_mut_true {g : PGraph V E} {l : List Id} {c : Nat}
    (h : (g.remove_all_mut_no_inc l).2 = true) :
    g.remove_all_mut l c =
      (({ (g.remove_all_mut_no_inc l).1 with idgen := ⟨c⟩ }, true), c + 1) := by
  unfold PGraph.remove_all_mut
  rw [h]
  rfl

theorem remove_all_mut_false {g : PGraph V E} {l : List Id} {c : Nat}
    (h : (g.remove_all_mut_no_inc l).2 = false) :
    g.remove_all_mut l c = (((g.remove_all_mut_no_inc l).1, false), c) := by
  unfold PGraph.remove_all_mut
  rw [h]
  rfl

theorem try_remove_some {g : PGraph V E} {id : Id} {c c2 : Nat} {g2 : PGraph V E}
    (hr : g.try_remove id c = (some g2, c2)) :
    g2 = ((g.cloneAt c).1).remove_mut_no_inc id ∧ c2 = c + 1 ∧
      g.has_vertex id = true := by
  unfold PGraph.try_remove at hr
  cases h : g.has_vertex id with
  | true =>
    rw [h, if_pos rfl] at hr
    have h1 : some (((g.cloneAt c).1).remove_mut_no_inc id) = some g2 :=
      congrArg Prod.fst hr
    have h2 : c + 1 = c2 := congrArg Prod.snd hr
    exact ⟨(Option.some.inj h1).symm, h2.symm, rfl⟩
  | false =>
    rw [h] at hr
    have h1 : (none : Option (PGraph V E)) = some g2 := congrArg Prod.fst hr
    exact Option.noConfusion h1

theorem tryRemoveAllStep_none (g : PGraph V E) (c1 : Nat) (id : Id) :
    PGraph.tryRemoveAllStep g (none, c1) id =
      if g.has_vertex id then (some (((g.cloneAt c1).1).remove_mut_no_inc id), c1 + 1)
      else (none, c1) := rfl

theorem tryRemoveAllStep_some (g h : PGraph V E) (c1 : Nat) (id : Id) :
    PGraph.tryRemoveAllStep g (some h, c1) id =
      (some (h.try_remove_mut_no_inc id).1, c1) := rfl

theorem tral_foldl {g : PGraph V E} {c : Nat} (hb : emptiesBounded g) :
    ∀ (l : List Id) (acc : Option (PGraph V E) × Nat),
    (acc = (none, c) ∨
      ∃ h0, acc = (some h0, c + 1) ∧ h0.idgen = ⟨c⟩ ∧ emptiesBounded h0) →
    ((l.foldl (PGraph.tryRemoveAllStep g) acc) = (none, c) ∨
      ∃ h0, l.foldl (PGraph.tryRemoveAllStep g) acc = (some h0, c + 1) ∧
        h0.idgen = ⟨c⟩ ∧ emptiesBounded h0)
  | [], acc, hacc => hacc
  | id :: ids, acc, hacc => by
      rw [List.foldl_cons]
      refine tral_foldl hb ids _ ?_
      rcases hacc with h | ⟨h0, heq, hgen, hbh⟩
      · subst h
        rw [tryRemoveAllStep_none]
        cases hl : g.has_vertex id with
        | true =>
          rw [if_pos rfl]
          refine Or.inr ⟨((g.cloneAt c).1).remove_mut_no_inc id, rfl, ?_, ?_⟩
          · rw [rmni_idgen]
            rfl
          · exact rmni_bounded (fun j hj => hb j hj) hl
        | false =>
          rw [if_neg (by simp [hl])]
          exact Or.inl rfl
      · subst heq
        rw [tryRemoveAllStep_some]
        refine Or.inr ⟨(h0.try_remove_mut_no_inc id).1, rfl, ?_, ?_⟩
        · rw [trmni_idgen, hgen]
        · exact trmni_bounded id hbh

theorem try_remove_all_some {g : PGraph V E} {l : List Id} {c c2 : Nat}
    {g2 : PGraph V E} (hb : emptiesBounded g)
    (hr : g.try_remove_all l c = (some g2, c2)) :
    g2.idgen = ⟨c⟩ ∧ c2 = c + 1 ∧ emptiesBounded g2 := by
  have h := tral_foldl (g := g) (c := c) hb l (none, c) (Or.inl rfl)
  unfold PGraph.try_remove_all at hr
  rcases h with h | ⟨h0, heq, hgen, hbh⟩
  · rw [h] at hr
    have h1 : (none : Option (PGraph V E)) = some g2 := congrArg Prod.fst hr
    exact Option.noConfusion h1
  · rw [heq] at hr
    have h1 : some h0 = some g2 := congrArg Prod.fst hr
    have h2 : c + 1 = c2 := congrArg Prod.snd hr
    rw [← Option.some.inj h1]
    exact ⟨hgen, h2.symm, hbh⟩

theorem cloneAt_graph (g : PGraph V E) (c : Nat) :
    (g.cloneAt c).1 = { g with idgen := ⟨c⟩ } := rfl

theorem cloneAt_has_vertex (g : PGraph V E) (c : Nat) (a : Id) :
    ((g.cloneAt c).1).has_vertex a = g.has_vertex a := rfl

theorem skeleton_len {g g2 : PGraph V E} (hsk : SameSkeleton g g2) :
    g2.guts.length = g.guts.length := by
  rcases Nat.lt_trichotomy g2.guts.length g.guts.length with h | h | h
  · exfalso
    have h1 : g2.guts[g2.guts.length]? = none := List.getElem?_eq_none (Nat.le_refl _)
    have h2 := hsk.2.2 g2.guts.length
    rw [h1] at h2
    cases h3 : g.guts[g2.guts.length]? with
    | none =>
      have := List.getElem?_eq_none_iff.mp h3
      omega
    | some vo =>
      rw [h3] at h2
      simp at h2
  · exact h
  · exfalso
    have h1 : g.guts[g.guts.length]? = none := List.getElem?_eq_none (Nat.le_refl _)
    have h2 := hsk.2.2 g.guts.length
    rw [h1] at h2
    cases h3 : g2.guts[g.guts.length]? with
    | none =>
      have := (List.getElem?_eq_none_iff.mp h3)
      omega
    | some vo =>
      rw [h3] at h2
      simp at h2

theorem winv_init : WInvC (V := V) (E := E) 0 [] [] := by
  refine ⟨?_, ?_, ?_, ?_, ?_⟩
  · intro i g hg
    simp at hg
  · intro a ha
    simp at ha
  · intro i g hg
    simp at hg
  · intro i j g1 g2 hij h1 h2
    simp at h1
  · intro i g hg
    simp at hg

theorem winv_cons {c : Nat} {gs : List (PGraph V E)} {M : List Id} (hI : WInvC c gs M)
    {gNew : PGraph V E} (hgen : gNew.idgen.current_gen = c) (hbNew : emptiesBounded gNew) :
    WInvC (c + 1) (gNew :: gs) M := by
  obtain ⟨hA, hB, hC, hG, hE⟩ := hI
  refine ⟨?_, ?_, ?_, ?_, ?_⟩
  · intro i g hg
    cases i with
    | zero =>
      rw [List.getElem?_cons_zero] at hg
      cases Option.some.inj hg
      rw [hgen]
      exact Nat.lt_succ_self c
    | succ i =>
      rw [List.getElem?_cons_succ] at hg
      exact Nat.lt_succ_of_lt (hA i g hg)
  · intro a ha
    exact Nat.lt_succ_of_lt (hB a ha)
  · intro i g hg a ha hag
    cases i with
    | zero =>
      rw [List.getElem?_cons_zero] at hg
      cases Option.some.inj hg
      exfalso
      rw [hgen] at hag
      have := hB a ha
      omega
    | succ i =>
      rw [List.getElem?_cons_succ] at hg
      exact hC i g hg a ha hag
  · intro i j g1 g2 hij h1 h2
    cases i with
    | zero =>
      rw [List.getElem?_cons_zero] at h1
      cases Option.some.inj h1
      cases j with
      | zero => exact absurd rfl hij
      | succ j =>
        rw [List.getElem?_cons_succ] at h2
        have := hA j g2 h2
        rw [hgen]
        omega
    | succ i =>
      rw [List.getElem?_cons_succ] at h1
      cases j with
      | zero =>
        rw [List.getElem?_cons_zero] at h2
        cases Option.some.inj h2
        have := hA i g1 h1
        rw [hgen]
        omega
      | succ j =>
        rw [List.getElem?_cons_succ] at h2
        exact hG i j g1 g2 (fun hc => hij (by rw [hc])) h1 h2
  · intro i g hg
    cases i with
    | zero =>
      rw [List.getElem?_cons_zero] at hg
      cases Option.some.inj hg
      exact hbNew
    | succ i =>
      rw [List.getElem?_cons_succ] at hg
      exact hE i g hg

theorem setLookup {α : Type _} {l : List α} {i : Nat} {a : α} (h : l[i]? = some a)
    (b : α) (j : Nat) :
    (l.set i b)[j]? = if i = j then some b else l[j]? := by
  by_cases hij : i = j
  · subst hij
    rw [if_pos rfl]
    exact List.getElem?_set_self (List.getElem?_eq_some_iff.mp h).1
  · rw [if_neg hij, List.getElem?_set_ne hij]

theorem winv_set_fresh {c : Nat} {gs : List (PGraph V E)} {M : List Id}
    (hI : WInvC c gs M) {i : Nat} {g : PGraph V E} (hg : gs[i]? = some g)
    {gNew : PGraph V E} (hgen : gNew.idgen.current_gen = c)
    (hbNew : emptiesBounded gNew) :
    WInvC (c + 1) (gs.set i gNew) M := by
  obtain ⟨hA, hB, hC, hG, hE⟩ := hI
  refine ⟨?_, ?_, ?_, ?_, ?_⟩
  · intro j h hj
    rw [setLookup hg gNew j] at hj
    by_cases hij : i = j
    · rw [if_pos hij] at hj
      cases Option.some.inj hj
      omega
    · rw [if_neg hij] at hj
      exact Nat.lt_succ_of_lt (hA j h hj)
  · intro a ha
    exact Nat.lt_succ_of_lt (hB a ha)
  · intro j h hj a ha hag
    rw [setLookup hg gNew j] at hj
    by_cases hij : i = j
    · rw [if_pos hij] at hj
      cases Option.some.inj hj
      exfalso
      have := hB a ha
      omega
    · rw [if_neg hij] at hj
      exact hC j h hj a ha hag
  · intro j k g1 g2 hjk h1 h2
    rw [setLookup hg gNew j] at h1
    rw [setLookup hg gNew k] at h2
    by_cases hij : i = j
    · rw [if_pos hij] at h1
      cases Option.some.inj h1
      have hik : ¬ i = k := fun hc => hjk (hij ▸ hc ▸ rfl)
      rw [if_neg hik] at h2
      have := hA k g2 h2
      omega
    · rw [if_neg hij] at h1
      by_cases hik : i = k
      · rw [if_pos hik] at h2
        cases Option.some.inj h2
        have := hA j g1 h1
        omega
      · rw [if_neg hik] at h2
        exact hG j k g1 g2 hjk h1 h2
  · intro j h hj
    rw [setLookup hg gNew j] at hj
    by_cases hij : i = j
    · rw [if_pos hij] at hj
      cases Option.some.inj hj
      exact hbNew
    · rw [if_neg hij] at hj
      exact hE j h hj

theorem winv_set_samegen {c : Nat} {gs : List (PGraph V E)} {M : List Id}
    (hI : WInvC c gs M) {i : Nat} {g : PGraph V E} (hg : gs[i]? = some g)
    {gNew : PGraph V E} (hgen : gNew.idgen.current_gen = g.idgen.current_gen)
    (hbNew : emptiesBounded gNew)
    (hlive : ∀ a : Id, a.generation = g.idgen.current_gen → g.has_vertex a = true →
      gNew.has_vertex a = true) :
    WInvC c (gs.set i gNew) M := by
  obtain ⟨hA, hB, hC, hG, hE⟩ := hI
  refine ⟨?_, ?_, ?_, ?_, ?_⟩
  · intro j h hj
    rw [setLookup hg gNew j] at hj
    by_cases hij : i = j
    · rw [if_pos hij] at hj
      cases Option.some.inj hj
      rw [hgen]
      exact hA i g hg
    · rw [if_neg hij] at hj
      exact hA j h hj
  · exact hB
  · intro j h hj a ha hag
    rw [setLookup hg gNew j] at hj
    by_cases hij : i = j
    · rw [if_pos hij] at hj
      cases Option.some.inj hj
      rw [hgen] at hag
      exact hlive a hag (hC i g hg a ha hag)
    · rw [if_neg hij] at hj
      exact hC j h hj a ha hag
  · intro j k g1 g2 hjk h1 h2
    rw [setLookup hg gNew j] at h1
    rw [setLookup hg gNew k] at h2
    by_cases hij : i = j
    · rw [if_pos hij] at h1
      cases Option.some.inj h1
      have hik : ¬ i = k := fun hc => hjk (hij ▸ hc ▸ rfl)
      rw [if_neg hik] at h2
      rw [hgen]
      exact hG i k g g2 hik hg h2
    · rw [if_neg hij] at h1
      by_cases hik : i = k
      · rw [if_pos hik] at h2
        cases Option.some.inj h2
        rw [hgen]
        exact hG j i g1 g (fun hc => hij (hc ▸ rfl)) h1 hg
      · rw [if_neg hik] at h2
        exact hG j k g1 g2 hjk h1 h2
  · intro j h hj
    rw [setLookup hg gNew j] at hj
    by_cases hij : i = j
    · rw [if_pos hij] at hj
      cases Option.some.inj hj
      exact hbNew
    · rw [if_neg hij] at hj
      exact hE j h hj

theorem winv_addMut {c : Nat} {gs : List (PGraph V E)} {M : List Id}
    (hI : WInvC c gs M) {i : Nat} {g : PGraph V E} (hg : gs[i]? = some g) (x : V) :
    WInvC c (gs.set i (g.add_mut x).1) ((g.add_mut x).2 :: M) := by
  have hbg : emptiesBounded g := hI.2.2.2.2 i g hg
  have hAg : g.idgen.current_gen < c := hI.1 i g hg
  have hstep := winv_set_samegen hI hg (by rw [add_mut_idgen g x])
    (by
      intro m hm
      rw [add_mut_empties] at hm
      exact Nat.lt_of_lt_of_le (hbg m hm) (add_mut_len g x))
    (fun a hag ha => add_mut_preserves_live x hag ha)
  obtain ⟨hA, hB, hC, hG, hE⟩ := hstep
  refine ⟨hA, ?_, ?_, hG, hE⟩
  · intro a ha
    rcases List.mem_cons.mp ha with h | h
    · subst h
      rw [add_mut_id_gen]
      exact hAg
    · exact hI.2.1 a h
  · intro j h hj a ha hag
    rcases List.mem_cons.mp ha with hm | hm
    · subst hm
      rw [setLookup hg (g.add_mut x).1 j] at hj
      by_cases hij : i = j
      · rw [if_pos hij] at hj
        cases Option.some.inj hj
        exact add_mut_has_new hbg x
      · rw [if_neg hij] at hj
        exfalso
        have h1 : g.idgen.current_gen = h.idgen.current_gen := by
          rw [← add_mut_id_gen g x]
          exact hag
        exact hI.2.2.2.1 i j g h hij hg hj h1
    · exact hC j h hj a hm hag

theorem skeleton_has_vertex {g g2 : PGraph V E} (hsk : SameSkeleton g g2) (a : Id) :
    g2.has_vertex a = g.has_vertex a := by
  have hj := hsk.2.2 a.index
  unfold PGraph.has_vertex PGraph.vertex
  cases h1 : g.guts[a.index]? with
  | none =>
    rw [h1, Option.map_none'] at hj
    cases h2 : g2.guts[a.index]? with
    | none => rfl
    | some vo =>
      rw [h2, Option.map_some'] at hj
      exact Option.noConfusion hj
  | some vo =>
    rw [h1, Option.map_some'] at hj
    cases h2 : g2.guts[a.index]? with
    | none =>
      rw [h2, Option.map_none'] at hj
      exact Option.noConfusion hj
    | some vo2 =>
      rw [h2, Option.map_some'] at hj
      have hj2 : vo2.map Vertex.id = vo.map Vertex.id := Option.some.inj hj
      cases vo with
      | none =>
        cases vo2 with
        | none => rfl
        | some w2 =>
          rw [Option.map_none', Option.map_some'] at hj2
          exact Option.noConfusion hj2
      | some w =>
        cases vo2 with
        | none =>
          rw [Option.map_none', Option.map_some'] at hj2
          exact Option.noConfusion hj2
        | some w2 =>
          rw [Option.map_some', Option.map_some'] at hj2
          have hid : w2.id = w.id := Option.some.inj hj2
          simp only [Vertex.same_id, hid]
          by_cases haw : a = w.id <;> simp [haw]

theorem remove_mut_live_counter {g : PGraph V E} {id : Id} {c : Nat}
    (h : g.has_vertex id = true) : (g.remove_mut id c).2 = c + 1 := by
  unfold PGraph.remove_mut
  rw [h]
  rfl

theorem winv_removeMut {c : Nat} {gs : List (PGraph V E)} {M : List Id}
    (hI : WInvC c gs M) {i : Nat} {g : PGraph V E} (hg : gs[i]? = some g)
    (id : Id) :
    WInvC (g.remove_mut id c).2 (gs.set i ((g.remove_mut id c).1).1) M := by
  cases hlv : g.has_vertex id with
  | false =>
    rw [remove_mut_not_live hlv]
    exact winv_set_samegen hI hg rfl (hI.2.2.2.2 i g hg) (fun a _ ha => ha)
  | true =>
    rw [remove_mut_graph hlv, remove_mut_live_counter hlv]
    refine winv_set_fresh hI hg rfl ?_
    intro m hm
    exact rmni_bounded (hI.2.2.2.2 i g hg) hlv m hm

theorem winv_removeAllMut {c : Nat} {gs : List (PGraph V E)} {M : List Id}
    (hI : WInvC c gs M) {i : Nat} {g : PGraph V E} (hg : gs[i]? = some g)
    (l : List Id) :
    WInvC (g.remove_all_mut l c).2 (gs.set i ((g.remove_all_mut l c).1).1) M := by
  cases hch : (g.remove_all_mut_no_inc l).2 with
  | true =>
    rw [remove_all_mut_true hch]
    refine winv_set_fresh hI hg rfl ?_
    intro m hm
    exact ranmi_foldl_bounded l (g, false) (hI.2.2.2.2 i g hg) m hm
  | false =>
    rw [remove_all_mut_false hch]
    have hEq := (ranmi_false l g hch).1
    rw [hEq]
    exact winv_set_samegen hI hg rfl (hI.2.2.2.2 i g hg) (fun a _ ha => ha)

theorem winv_skeleton {c : Nat} {gs : List (PGraph V E)} {M : List Id}
    (hI : WInvC c gs M) {i : Nat} {g g2 : PGraph V E} (hg : gs[i]? = some g)
    (hsk : SameSkeleton g g2) :
    WInvC c (gs.set i g2) M := by
  refine winv_set_samegen hI hg (by rw [hsk.1]) ?_ ?_
  · intro m hm
    rw [hsk.2.1] at hm
    rw [skeleton_len hsk]
    exact hI.2.2.2.2 i g hg m hm
  · intro a _ ha
    rw [skeleton_has_vertex hsk]
    exact ha

theorem winv_step {s s2 : WState V E} (hI : WInv s) (hst : Step s s2) : WInv s2 := by
  cases hst with
  | newGraph c gs M =>
    exact winv_cons hI rfl (fun j hj => absurd hj (List.not_mem_nil j))
  | cloneG c gs M i g hg =>
    exact winv_cons hI rfl (fun j hj => hI.2.2.2.2 i g hg j hj)
  | addMut c gs M i g x hg =>
    exact winv_addMut hI hg x
  | removeMut c gs M i g id hg =>
    exact winv_removeMut hI hg id
  | removeAllMut c gs M i g l hg =>
    exact winv_removeAllMut hI hg l
  | tryRemove c gs M i g id g2 c2 hg hr =>
    obtain ⟨hgeq, hc2, hlv⟩ := try_remove_some hr
    subst hc2
    subst hgeq
    exact winv_cons hI rfl
      (fun j hj => rmni_bounded (fun m hm => hI.2.2.2.2 i g hg m hm) hlv j hj)
  | tryRemoveAll c gs M i g l g2 c2 hg hr =>
    obtain ⟨hgen, hc2, hb2⟩ := try_remove_all_some (hI.2.2.2.2 i g hg) hr
    subst hc2
    exact winv_cons hI (by rw [hgen]) hb2
  | mutSkeleton c gs M i g g2 hg hsk =>
    exact winv_skeleton hI hg hsk

/-- Every reachable process state satisfies the generational invariant. -/
theorem reachable_winv {s : WState V E} (h : Reachable s) : WInv s := by
  unfold Reachable at h
  induction h with
  | refl => exact winv_init
  | tail h1 h2 ih => exact winv_step ih h2

theorem add_mut_ne_of_gen (g2 : PGraph V E) (x : V) {a : Id}
    (h : a.generation ≠ g2.idgen.current_gen) : (g2.add_mut x).2 ≠ a := by
  intro hc
  exact h (by rw [← hc, add_mut_id_gen])

/-- C2: generational soundness. In every reachable process state, for every
graph g of the state and every Id a ever minted, removing a from g -- by
remove_mut, by remove_mut followed by a clone, by remove, by try_remove, or by
a remove_all variant whose argument list contains a -- and then adding any
vertex data x with add_mut never yields an Id equal to a, even when the new
vertex reuses the old slot. -/
theorem C2_generational_soundness {s : WState V E} (hR : Reachable s)
    {g : PGraph V E} (hgm : g ∈ s.graphs) {a : Id} (ha : a ∈ s.minted)
    (x : V) :
    ((((g.remove_mut a s.counter).1).1).add_mut x).2 ≠ a ∧
    (((((g.remove_mut a s.counter).1).1.cloneAt
        ((g.remove_mut a s.counter).2)).1).add_mut x).2 ≠ a ∧
    ((g.remove a s.counter).1.add_mut x).2 ≠ a ∧
    (∀ (g2 : PGraph V E) (c2 : Nat), g.try_remove a s.counter = (some g2, c2) →
      (g2.add_mut x).2 ≠ a) ∧
    (∀ l : List Id, a ∈ l →
      ((((g.remove_all_mut l s.counter).1).1).add_mut x).2 ≠ a) ∧
    (∀ l : List Id, a ∈ l → ((g.remove_all l s.counter).1.add_mut x).2 ≠ a) ∧
    (∀ (l : List Id), a ∈ l → ∀ (g2 : PGraph V E) (c2 : Nat),
      g.try_remove_all l s.counter = (some g2, c2) → (g2.add_mut x).2 ≠ a) := by
  obtain ⟨i, hg⟩ := List.mem_iff_getElem?.mp hgm
  have hI : WInvC s.counter s.graphs s.minted := reachable_winv hR
  have hBa : a.generation < s.counter := hI.2.1 a ha
  have hOldC : a.generation = g.idgen.current_gen → g.has_vertex a = true :=
    fun hy => hI.2.2.1 i g hg a ha hy
  refine ⟨?_, ?_, ?_, ?_, ?_, ?_, ?_⟩
  · cases hlv : g.has_vertex a with
    | true =>
      rw [remove_mut_graph hlv]
      refine add_mut_ne_of_gen _ x ?_
      show a.generation ≠ s.counter
      omega
    | false =>
      rw [remove_mut_not_live hlv]
      refine add_mut_ne_of_gen _ x ?_
      show a.generation ≠ g.idgen.current_gen
      intro hy
      rw [hOldC hy] at hlv
      exact Bool.noConfusion hlv
  · refine add_mut_ne_of_gen _ x ?_
    show a.generation ≠ (g.remove_mut a s.counter).2
    cases hlv : g.has_vertex a with
    | true =>
      rw [remove_mut_live_counter hlv]
      omega
    | false =>
      rw [remove_mut_not_live hlv]
      show a.generation ≠ s.counter
      omega
  · refine add_mut_ne_of_gen _ x ?_
    show a.generation ≠
      ((((g.cloneAt s.counter).1).remove_mut a
        ((g.cloneAt s.counter).2)).1.1).idgen.current_gen
    cases hlv : g.has_vertex a with
    | true =>
      have hlv2 : ((g.cloneAt s.counter).1).has_vertex a = true := hlv
      rw [remove_mut_graph hlv2]
      show a.generation ≠ s.counter + 1
      omega
    | false =>
      have hlv2 : ((g.cloneAt s.counter).1).has_vertex a = false := hlv
      rw [remove_mut_not_live hlv2]
      show a.generation ≠ s.counter
      omega
  · intro g2 c2 hr
    obtain ⟨hgeq, _, _⟩ := try_remove_some hr
    subst hgeq
    refine add_mut_ne_of_gen _ x ?_
    show a.generation ≠ s.counter
    omega
  · intro l hal
    cases hch : (g.remove_all_mut_no_inc l).2 with
    | true =>
      rw [remove_all_mut_true hch]
      refine add_mut_ne_of_gen _ x ?_
      show a.generation ≠ s.counter
      omega
    | false =>
      rw [remove_all_mut_false hch]
      have hfacts := ranmi_false l g hch
      rw [hfacts.1]
      refine add_mut_ne_of_gen _ x ?_
      show a.generation ≠ g.idgen.current_gen
      intro hy
      have h2 := hfacts.2 a hal
      rw [hOldC hy] at h2
      exact Bool.noConfusion h2
  · intro l _hal
    refine add_mut_ne_of_gen _ x ?_
    show a.generation ≠
      ((((g.cloneAt s.counter).1).remove_all_mut l
        ((g.cloneAt s.counter).2)).1.1).idgen.current_gen
    cases hch : (((g.cloneAt s.counter).1).remove_all_mut_no_inc l).2 with
    | true =>
      rw [remove_all_mut_true hch]
      show a.generation ≠ s.counter + 1
      omega
    | false =>
      rw [remove_all_mut_false hch]
      show a.generation ≠
        ((((g.cloneAt s.counter).1).remove_all_mut_no_inc l).1).idgen.current_gen
      rw [show ((((g.cloneAt s.counter).1).remove_all_mut_no_inc l).1).idgen =
          ((g.cloneAt s.counter).1).idgen from
          ranmi_foldl_idgen l ((g.cloneAt s.counter).1, false)]
      show a.generation ≠ s.counter
      omega
  · intro l _hal g2 c2 hr
    obtain ⟨hgen, _, _⟩ := try_remove_all_some (hI.2.2.2.2 i g hg) hr
    refine add_mut_ne_of_gen _ x ?_
    rw [hgen]
    show a.generation ≠ s.counter
    omega

theorem c2S_reachable : Reachable c2S :=
  Relation.ReflTransGen.tail
    (Relation.ReflTransGen.tail Relation.ReflTransGen.refl (Step.newGraph 0 [] []))
    (Step.addMut 1 [(PGraph.new Nat Nat 0).1] [] 0 (PGraph.new Nat Nat 0).1 5 rfl)

/-- Witness for C2: a concrete reachable state (new graph, one vertex added)
in which the hypotheses hold, instantiated at payload 7; removing the vertex
in place and re-adding reuses slot 0 but mints a distinct Id. -/
theorem C2_witness :
    Reachable c2S ∧ c2G ∈ c2S.graphs ∧ c2A ∈ c2S.minted ∧
    ((((c2G.remove_mut c2A c2S.counter).1).1).add_mut 7).2 ≠ c2A :=
  ⟨c2S_reachable, by simp [c2S], by simp [c2S],
    (C2_generational_soundness c2S_reachable (by simp [c2S])
      (by simp [c2S]) 7).1⟩

/-! Lemmas about the refcounted store. -/

theorem valAt_set_same {A : Type} {st : List (Cell A)} {q : Nat} {c : Cell A}
    (hq : st[q]? = some c) (c2 : Cell A) (hval : c2.val = c.val) (p : Nat) :
    valAt (st.set q c2) p = valAt st p := by
  unfold valAt
  by_cases hpq : p = q
  · subst hpq
    rw [List.getElem?_set_self', hq]
    simp [hval]
  · rw [List.getElem?_set_ne (fun hc => hpq hc.symm)]

theorem valAt_bump {A : Type} (st : List (Cell A)) (q p : Nat) :
    valAt (bump st q) p = valAt st p := by
  cases hq : st[q]? with
  | none => simp only [bump, hq]
  | some c =>
      simp only [bump, hq]
      exact valAt_set_same hq ⟨c.count + 1, c.val⟩ rfl p

theorem valAt_decRef {A : Type} (st : List (Cell A)) (q p : Nat) :
    valAt (decRef st q) p = valAt st p := by
  cases hq : st[q]? with
  | none => simp only [decRef, hq]
  | some c =>
      simp only [decRef, hq]
      exact valAt_set_same hq ⟨c.count - 1, c.val⟩ rfl p

theorem valAt_bumpAll {A : Type} : ∀ (ps : List Nat) (st : List (Cell A)) (p : Nat),
    valAt (bumpAll st ps) p = valAt st p
  | [], _, _ => rfl
  | q :: ps, st, p => by
      have hrec := valAt_bumpAll ps (bump st q) p
      unfold bumpAll at hrec ⊢
      rw [List.foldl_cons, hrec, valAt_bump]

theorem valAt_decRefAll {A : Type} : ∀ (ps : List Nat) (st : List (Cell A)) (p : Nat),
    valAt (decRefAll st ps) p = valAt st p
  | [], _, _ => rfl
  | q :: ps, st, p => by
      have hrec := valAt_decRefAll ps (decRef st q) p
      unfold decRefAll at hrec ⊢
      rw [List.foldl_cons, hrec, valAt_decRef]

theorem valAt_alloc {A : Type} (st : List (Cell A)) (x : A) {p : Nat}
    (hp : p < st.length) : valAt (alloc st x).1 p = valAt st p := by
  unfold alloc valAt
  rw [List.getElem?_append_left hp]

theorem countAt_bump_self {A : Type} {st : List (Cell A)} {q : Nat}
    (h : (st[q]?).isSome) : countAt (bump st q) q = countAt st q + 1 := by
  unfold bump countAt
  cases hq : st[q]? with
  | none => rw [hq] at h; simp at h
  | some c =>
      rw [List.getElem?_set_self', hq]
      rfl

theorem countAt_bump_ne {A : Type} (st : List (Cell A)) {q p : Nat} (h : p ≠ q) :
    countAt (bump st q) p = countAt st p := by
  unfold bump countAt
  cases hq : st[q]? with
  | none => rfl
  | some c => rw [List.getElem?_set_ne (fun hc => h hc.symm)]

theorem isSome_bump {A : Type} (st : List (Cell A)) (q p : Nat) :
    ((bump st q)[p]?).isSome = (st[p]?).isSome := by
  unfold bump
  cases hq : st[q]? with
  | none => rfl
  | some c =>
      by_cases hpq : p = q
      · subst hpq
        rw [List.getElem?_set_self', hq]
        rfl
      · rw [List.getElem?_set_ne (fun hc => hpq hc.symm)]

theorem countAt_bumpAll {A : Type} : ∀ (ps : List Nat) (st : List (Cell A)) (p : Nat),
    (∀ q ∈ ps, (st[q]?).isSome) →
    countAt (bumpAll st ps) p = countAt st p + ps.count p
  | [], st, p, _ => by simp [bumpAll]
  | q :: ps, st, p, hall => by
      have hrec := countAt_bumpAll ps (bump st q) p (fun r hr => by
        rw [isSome_bump]
        exact hall r (List.mem_cons_of_mem q hr))
      unfold bumpAll at hrec ⊢
      rw [List.foldl_cons, hrec, List.count_cons]
      by_cases hpq : p = q
      · subst hpq
        rw [countAt_bump_self (hall p (List.mem_cons_self p ps))]
        simp
        omega
      · rw [countAt_bump_ne st hpq]
        have hqp : (q == p) = false := beq_eq_false_iff_ne.mpr (fun hc => hpq hc.symm)
        rw [hqp]
        simp

theorem countAt_pos_isSome {A : Type} {st : List (Cell A)} {q : Nat}
    (h : 0 < countAt st q) : (st[q]?).isSome := by
  unfold countAt at h
  cases hq : st[q]? with
  | none => rw [hq] at h; simp at h
  | some c => simp [hq]

theorem countAt_pos_lt {A : Type} {st : List (Cell A)} {q : Nat}
    (h : 0 < countAt st q) : q < st.length := by
  have h1 := countAt_pos_isSome h
  cases hq : st[q]? with
  | none => rw [hq] at h1; simp at h1
  | some c => obtain ⟨hlt, _⟩ := List.getElem?_eq_some_iff.mp hq; exact hlt

theorem length_decRef {A : Type} (st : List (Cell A)) (q : Nat) :
    (decRef st q).length = st.length := by
  unfold decRef
  cases hq : st[q]? with
  | none => rfl
  | some c => exact List.length_set st q _

theorem valAt_makeMut {A : Type} (st : List (Cell A)) (q : Nat) (f : A → A) (p : Nat)
    (hp : p < st.length) (hne : countAt st q = 1 → p ≠ q) :
    valAt (makeMut st q f).1 p = valAt st p := by
  cases hq : st[q]? with
  | none => simp only [makeMut, hq]
  | some c =>
      simp only [makeMut, hq]
      by_cases hc : c.count = 1
      · rw [if_pos hc]
        have hcount : countAt st q = 1 := by unfold countAt; rw [hq]; simpa using hc
        show valAt (st.set q ⟨1, f c.val⟩) p = valAt st p
        unfold valAt
        rw [List.getElem?_set_ne (fun h2 => hne hcount h2.symm)]
      · rw [if_neg hc]
        show valAt (st.set q ⟨c.count - 1, c.val⟩ ++ [⟨1, f c.val⟩]) p = valAt st p
        unfold valAt
        rw [List.getElem?_append_left (by rw [List.length_set]; exact hp)]
        by_cases hpq : p = q
        · subst hpq
          rw [List.getElem?_set_self', hq]
          rfl
        · rw [List.getElem?_set_ne (fun h2 => hpq h2.symm)]

theorem sVertexRaw_mem_guts {g : SGraph} {id : Id} {v : SVertex}
    (h : sVertexRaw g id = some v) : some v ∈ g.guts := by
  unfold sVertexRaw at h
  split at h
  · next v2 heq =>
      by_cases hid : id = v2.id
      · rw [if_pos hid] at h
        rw [← Option.some.inj h]
        exact List.getElem?_mem heq
      · rw [if_neg hid] at h
        exact Option.noConfusion h
  · exact Option.noConfusion h

theorem guts_mem_vptrs {g : SGraph} {v : SVertex} (h : some v ∈ g.guts) :
    v.data ∈ vptrs g :=
  List.mem_filterMap.mpr ⟨some v, h, rfl⟩

theorem sWeightPtr_mem_adjPtrs {v : SVertex} {sink : Id} {q : Nat}
    (h : sWeightPtr v sink = some q) : q ∈ adjPtrs v.adj := by
  unfold sWeightPtr at h
  split at h
  · next iq heq =>
      by_cases hid : sink = iq.1
      · rw [if_pos hid] at h
        rw [← Option.some.inj h]
        exact List.mem_filterMap.mpr ⟨some iq, List.getElem?_mem heq, rfl⟩
      · rw [if_neg hid] at h
        exact Option.noConfusion h
  · exact Option.noConfusion h

theorem adjPtrs_mem_eptrs {g : SGraph} {v : SVertex} (hvg : some v ∈ g.guts)
    {q : Nat} (hq : q ∈ adjPtrs v.adj) : q ∈ eptrs g :=
  List.mem_flatten.mpr ⟨adjPtrs v.adj, List.mem_filterMap.mpr ⟨some v, hvg, rfl⟩, hq⟩

theorem sWeightPtr_mem_eptrs {g : SGraph} {id : Id} {v : SVertex} {sink : Id} {q : Nat}
    (hv : sVertexRaw g id = some v) (h : sWeightPtr v sink = some q) : q ∈ eptrs g :=
  adjPtrs_mem_eptrs (sVertexRaw_mem_guts hv) (sWeightPtr_mem_adjPtrs h)

theorem sharedOK_vs_all {g h : SGraph} {vs : List (Cell V)} {es : List (Cell E)}
    (hsh : SharedOK g h vs es) (p : Nat) :
    (vptrs g).count p + (vptrs h).count p ≤ countAt vs p := by
  by_cases hp : p ∈ vptrs g ++ vptrs h
  · exact hsh.1 p hp
  · rw [List.mem_append] at hp
    push_neg at hp
    rw [List.count_eq_zero_of_not_mem hp.1, List.count_eq_zero_of_not_mem hp.2]
    exact Nat.zero_le _

theorem sharedOK_es_all {g h : SGraph} {vs : List (Cell V)} {es : List (Cell E)}
    (hsh : SharedOK g h vs es) (p : Nat) :
    (eptrs g).count p + (eptrs h).count p ≤ countAt es p := by
  by_cases hp : p ∈ eptrs g ++ eptrs h
  · exact hsh.2 p hp
  · rw [List.mem_append] at hp
    push_neg at hp
    rw [List.count_eq_zero_of_not_mem hp.1, List.count_eq_zero_of_not_mem hp.2]
    exact Nat.zero_le _

theorem sharedOK_symm {g h : SGraph} {vs : List (Cell V)} {es : List (Cell E)}
    (hsh : SharedOK g h vs es) : SharedOK h g vs es := by
  constructor
  · intro p hp
    have h1 := sharedOK_vs_all hsh p
    omega
  · intro p hp
    have h1 := sharedOK_es_all hsh p
    omega

/-! Value-preservation of each mutator on cells an observer references. -/

theorem dropVertexRefs_vs_valAt (vs : List (Cell V)) (es : List (Cell E))
    (ov : Option SVertex) (p : Nat) :
    valAt (dropVertexRefs vs es ov).1 p = valAt vs p := by
  unfold dropVertexRefs
  cases ov with
  | none => rfl
  | some v => exact valAt_decRef vs v.data p

theorem dropVertexRefs_es_valAt (vs : List (Cell V)) (es : List (Cell E))
    (ov : Option SVertex) (p : Nat) :
    valAt (dropVertexRefs vs es ov).2 p = valAt es p := by
  unfold dropVertexRefs
  cases ov with
  | none => rfl
  | some v => exact valAt_decRefAll (adjPtrs v.adj) es p

theorem sAddMut_vs (g : SGraph) (vs : List (Cell V)) (es : List (Cell E)) (x : V)
    (p : Nat) (hp : p < vs.length) :
    valAt (sAddMut g vs es x).2.1 p = valAt vs p := by
  unfold sAddMut
  cases hf : g.empties.head? with
  | some i =>
      simp only [hf]
      rw [dropVertexRefs_vs_valAt]
      exact valAt_alloc vs x hp
  | none =>
      simp only [hf]
      exact valAt_alloc vs x hp

theorem sAddMut_es (g : SGraph) (vs : List (Cell V)) (es : List (Cell E)) (x : V)
    (p : Nat) : valAt (sAddMut g vs es x).2.2.1 p = valAt es p := by
  unfold sAddMut
  cases hf : g.empties.head? with
  | some i =>
      simp only [hf]
      rw [dropVertexRefs_es_valAt]
  | none => simp only [hf]

theorem sAddMut_vs_length (g : SGraph) (vs : List (Cell V)) (es : List (Cell E))
    (x : V) : (sAddMut g vs es x).2.1.length = vs.length + 1 := by
  unfold sAddMut
  cases hf : g.empties.head? with
  | some i =>
      simp only [hf]
      unfold dropVertexRefs
      cases hslot : g.guts[i]?.getD none with
      | none => simp [alloc]
      | some v => rw [length_decRef]; simp [alloc]
  | none =>
      simp only [hf]
      simp [alloc]

theorem sAddAllMut_frame : ∀ (xs : List V) (g : SGraph) (vs : List (Cell V))
    (es : List (Cell E)),
    (vs.length ≤ (sAddAllMut g vs es xs).2.1.length ∧
      ∀ p, p < vs.length → valAt (sAddAllMut g vs es xs).2.1 p = valAt vs p) ∧
    (∀ p, valAt (sAddAllMut g vs es xs).2.2.1 p = valAt es p)
  | [], g, vs, es => ⟨⟨Nat.le_refl _, fun _ _ => rfl⟩, fun _ => rfl⟩
  | x :: rest, g, vs, es => by
      have ih := sAddAllMut_frame rest (sAddMut g vs es x).1 (sAddMut g vs es x).2.1
        (sAddMut g vs es x).2.2.1
      refine ⟨⟨?_, ?_⟩, ?_⟩
      · show vs.length ≤ (sAddAllMut (sAddMut g vs es x).1 (sAddMut g vs es x).2.1
          (sAddMut g vs es x).2.2.1 rest).2.1.length
        have h1 := ih.1.1
        rw [sAddMut_vs_length] at h1
        omega
      · intro p hp
        show valAt (sAddAllMut (sAddMut g vs es x).1 (sAddMut g vs es x).2.1
          (sAddMut g vs es x).2.2.1 rest).2.1 p = valAt vs p
        rw [ih.1.2 p (by rw [sAddMut_vs_length]; omega)]
        exact sAddMut_vs g vs es x p hp
      · intro p
        show valAt (sAddAllMut (sAddMut g vs es x).1 (sAddMut g vs es x).2.1
          (sAddMut g vs es x).2.2.1 rest).2.2.1 p = valAt es p
        rw [ih.2 p]
        exact sAddMut_es g vs es x p

theorem sAddEdge_es (adj : List (Option (Id × Nat))) (es : List (Cell E)) (sink : Id)
    (w : E) (p : Nat) (hp : p < es.length) :
    valAt (sAddEdge adj es sink w).2 p = valAt es p := by
  unfold sAddEdge
  cases hslot : (AdjList.grow adj sink.index)[sink.index]? with
  | none =>
      simp only [hslot]
      exact valAt_alloc es w hp
  | some o =>
      cases o with
      | none =>
          simp only [hslot]
          exact valAt_alloc es w hp
      | some iq =>
          simp only [hslot]
          rw [valAt_alloc _ w (by rw [length_decRef]; exact hp), valAt_decRef]

theorem sConnectMut_es (g : SGraph) (es : List (Cell E)) (source sink : Id) (w : E)
    (p : Nat) (hp : p < es.length) :
    valAt (sConnectMut g es source sink w).2 p = valAt es p := by
  unfold sConnectMut
  by_cases hs : sHas_vertex g sink = true
  · rw [if_pos hs]
    cases hv : sVertexRaw g source with
    | some v =>
        simp only [hv]
        exact sAddEdge_es v.adj es sink w p hp
    | none => simp only [hv]
  · rw [if_neg hs]

theorem sTryConnectMut_es (g : SGraph) (es : List (Cell E)) (source sink : Id) (w : E)
    (p : Nat) (hp : p < es.length) :
    valAt (sTryConnectMut g es source sink w).1.2 p = valAt es p := by
  unfold sTryConnectMut
  by_cases hs : sHas_vertex g sink = true
  · rw [if_pos hs]
    cases hv : sVertexRaw g source with
    | some v =>
        simp only [hv]
        exact sAddEdge_es v.adj es sink w p hp
    | none => simp only [hv]
  · rw [if_neg hs]

theorem sDisconnectEdgeS_es (adj : List (Option (Id × Nat))) (es : List (Cell E))
    (sink : Id) (p : Nat) :
    valAt (sDisconnectEdgeS adj es sink).2 p = valAt es p := by
  unfold sDisconnectEdgeS
  cases hslot : adj[sink.index]? with
  | none => simp only [hslot]
  | some o =>
      cases o with
      | none => simp only [hslot]
      | some iq =>
          simp only [hslot]
          by_cases hid : sink = iq.1
          · rw [if_pos hid]
            exact valAt_decRef es iq.2 p
          · rw [if_neg hid]

theorem sDisconnectMut_es (g : SGraph) (es : List (Cell E)) (source sink : Id)
    (p : Nat) : valAt (sDisconnectMut g es source sink).2 p = valAt es p := by
  unfold sDisconnectMut
  cases hv : sVertexRaw g source with
  | some v =>
      simp only [hv]
      exact sDisconnectEdgeS_es v.adj es sink p
  | none => simp only [hv]

theorem sTryDisconnectMut_es (g : SGraph) (es : List (Cell E)) (source sink : Id)
    (p : Nat) : valAt (sTryDisconnectMut g es source sink).2 p = valAt es p := by
  unfold sTryDisconnectMut
  cases hv : sVertexRaw g source with
  | some v =>
      simp only [hv]
      exact sDisconnectEdgeS_es v.adj es sink p
  | none => simp only [hv]

theorem sDisconnectAllInc_es (g : SGraph) (es : List (Cell E)) (sink : Id)
    (p : Nat) : valAt (sDisconnectAllInc g es sink).2 p = valAt es p :=
  valAt_decRefAll _ es p

theorem sRemoveMutNoInc_vs (g : SGraph) (vs : List (Cell V)) (es : List (Cell E))
    (id : Id) (p : Nat) : valAt (sRemoveMutNoInc g vs es id).2.1 p = valAt vs p :=
  dropVertexRefs_vs_valAt vs es _ p

theorem sRemoveMutNoInc_es (g : SGraph) (vs : List (Cell V)) (es : List (Cell E))
    (id : Id) (p : Nat) : valAt (sRemoveMutNoInc g vs es id).2.2 p = valAt es p := by
  have h1 := sDisconnectAllInc_es
    { g with
      guts := g.guts.set id.index none
      empties := ordInsert id.index g.empties }
    (dropVertexRefs vs es (g.guts[id.index]?.getD none)).2 id p
  have h2 := dropVertexRefs_es_valAt vs es (g.guts[id.index]?.getD none) p
  exact h1.trans h2

theorem sRemoveMut_vs (g : SGraph) (vs : List (Cell V)) (es : List (Cell E))
    (id : Id) (c : Nat) (p : Nat) :
    valAt (sRemoveMut g vs es id c).1.2.1 p = valAt vs p := by
  unfold sRemoveMut
  by_cases hs : sHas_vertex g id = true
  · rw [if_pos hs]
    exact sRemoveMutNoInc_vs g vs es id p
  · rw [if_neg hs]

theorem sRemoveMut_es (g : SGraph) (vs : List (Cell V)) (es : List (Cell E))
    (id : Id) (c : Nat) (p : Nat) :
    valAt (sRemoveMut g vs es id c).1.2.2 p = valAt es p := by
  unfold sRemoveMut
  by_cases hs : sHas_vertex g id = true
  · rw [if_pos hs]
    exact sRemoveMutNoInc_es g vs es id p
  · rw [if_neg hs]

theorem sRemoveAllStep_vs (acc : (SGraph × List (Cell V) × List (Cell E)) × Bool)
    (id : Id) (p : Nat) :
    valAt (sRemoveAllStep acc id).1.2.1 p = valAt acc.1.2.1 p := by
  unfold sRemoveAllStep
  by_cases hs : sHas_vertex acc.1.1 id = true
  · rw [if_pos hs]
    exact sRemoveMutNoInc_vs acc.1.1 acc.1.2.1 acc.1.2.2 id p
  · rw [if_neg hs]

theorem sRemoveAllStep_es (acc : (SGraph × List (Cell V) × List (Cell E)) × Bool)
    (id : Id) (p : Nat) :
    valAt (sRemoveAllStep acc id).1.2.2 p = valAt acc.1.2.2 p := by
  unfold sRemoveAllStep
  by_cases hs : sHas_vertex acc.1.1 id = true
  · rw [if_pos hs]
    exact sRemoveMutNoInc_es acc.1.1 acc.1.2.1 acc.1.2.2 id p
  · rw [if_neg hs]

theorem sRemoveAllFold_vs : ∀ (l : List Id)
    (acc : (SGraph × List (Cell V) × List (Cell E)) × Bool) (p : Nat),
    valAt (l.foldl sRemoveAllStep acc).1.2.1 p = valAt acc.1.2.1 p
  | [], _, _ => rfl
  | id :: l, acc, p => by
      rw [List.foldl_cons, sRemoveAllFold_vs l (sRemoveAllStep acc id) p,
        sRemoveAllStep_vs]

theorem sRemoveAllFold_es : ∀ (l : List Id)
    (acc : (SGraph × List (Cell V) × List (Cell E)) × Bool) (p : Nat),
    valAt (l.foldl sRemoveAllStep acc).1.2.2 p = valAt acc.1.2.2 p
  | [], _, _ => rfl
  | id :: l, acc, p => by
      rw [List.foldl_cons, sRemoveAllFold_es l (sRemoveAllStep acc id) p,
        sRemoveAllStep_es]

theorem sRemoveAllMut_vs (g : SGraph) (vs : List (Cell V)) (es : List (Cell E))
    (l : List Id) (c : Nat) (p : Nat) :
    valAt (sRemoveAllMut g vs es l c).1.2.1 p = valAt vs p := by
  unfold sRemoveAllMut
  by_cases hb : (l.foldl sRemoveAllStep ((g, vs, es), false)).2 = true
  · rw [if_pos hb]
    exact sRemoveAllFold_vs l ((g, vs, es), false) p
  · rw [if_neg hb]
    exact sRemoveAllFold_vs l ((g, vs, es), false) p

theorem sRemoveAllMut_es (g : SGraph) (vs : List (Cell V)) (es : List (Cell E))
    (l : List Id) (c : Nat) (p : Nat) :
    valAt (sRemoveAllMut g vs es l c).1.2.2 p = valAt es p := by
  unfold sRemoveAllMut
  by_cases hb : (l.foldl sRemoveAllStep ((g, vs, es), false)).2 = true
  · rw [if_pos hb]
    exact sRemoveAllFold_es l ((g, vs, es), false) p
  · rw [if_neg hb]
    exact sRemoveAllFold_es l ((g, vs, es), false) p

theorem sVertexDataMut_frame {g h : SGraph} {vs : List (Cell V)} {es : List (Cell E)}
    (hsh : SharedOK g h vs es) (id : Id) (f : V → V) {p : Nat} (hp : p ∈ vptrs g) :
    valAt (sVertexDataMut h vs id f).2 p = valAt vs p := by
  have hocc : 0 < (vptrs g).count p := List.count_pos_iff.mpr hp
  have hall := sharedOK_vs_all hsh p
  have hplen : p < vs.length := countAt_pos_lt (by omega)
  unfold sVertexDataMut
  cases hv : sVertexRaw h id with
  | none => simp only [hv]
  | some v =>
      simp only [hv]
      refine valAt_makeMut vs v.data f p hplen ?_
      intro hone heq
      have hocch : 0 < (vptrs h).count v.data :=
        List.count_pos_iff.mpr (guts_mem_vptrs (sVertexRaw_mem_guts hv))
      rw [heq] at hocc hall
      omega

theorem sWeightMut_frame {g h : SGraph} {vs : List (Cell V)} {es : List (Cell E)}
    (hsh : SharedOK g h vs es) (source sink : Id) (f : E → E) {p : Nat}
    (hp : p ∈ eptrs g) :
    valAt (sWeightMut h es source sink f).2 p = valAt es p := by
  have hocc : 0 < (eptrs g).count p := List.count_pos_iff.mpr hp
  have hall := sharedOK_es_all hsh p
  have hplen : p < es.length := countAt_pos_lt (by omega)
  unfold sWeightMut
  cases hv : sVertexRaw h source with
  | none => simp only [hv]
  | some v =>
      simp only [hv]
      cases hq : sWeightPtr v sink with
      | none => simp only [hq]
      | some q =>
          simp only [hq]
          refine valAt_makeMut es q f p hplen ?_
          intro hone heq
          have hocch : 0 < (eptrs h).count q :=
            List.count_pos_iff.mpr (sWeightPtr_mem_eptrs hv hq)
          rw [heq] at hocc hall
          omega

theorem applyMut_frame_vs {g h : SGraph} {vs : List (Cell V)} {es : List (Cell E)}
    (hsh : SharedOK g h vs es) (op : MutOp V E) {p : Nat} (hp : p ∈ vptrs g) :
    valAt (applyMut h vs es op).2.1 p = valAt vs p := by
  have hocc : 0 < (vptrs g).count p := List.count_pos_iff.mpr hp
  have hall := sharedOK_vs_all hsh p
  have hplen : p < vs.length := countAt_pos_lt (by omega)
  cases op with
  | addMut x => exact sAddMut_vs h vs es x p hplen
  | addAllMut xs => exact (sAddAllMut_frame xs h vs es).1.2 p hplen
  | connectMut source sink w => rfl
  | tryConnectMut source sink w => rfl
  | disconnectMut source sink => rfl
  | tryDisconnectMut source sink => rfl
  | removeMut id c => exact sRemoveMut_vs h vs es id c p
  | removeAllMut l c => exact sRemoveAllMut_vs h vs es l c p
  | vertexDataMut id f => exact sVertexDataMut_frame hsh id f hp
  | weightMut source sink f => rfl

theorem applyMut_frame_es {g h : SGraph} {vs : List (Cell V)} {es : List (Cell E)}
    (hsh : SharedOK g h vs es) (op : MutOp V E) {p : Nat} (hp : p ∈ eptrs g) :
    valAt (applyMut h vs es op).2.2 p = valAt es p := by
  have hocc : 0 < (eptrs g).count p := List.count_pos_iff.mpr hp
  have hall := sharedOK_es_all hsh p
  have hplen : p < es.length := countAt_pos_lt (by omega)
  cases op with
  | addMut x => exact sAddMut_es h vs es x p
  | addAllMut xs => exact (sAddAllMut_frame xs h vs es).2 p
  | connectMut source sink w => exact sConnectMut_es h es source sink w p hplen
  | tryConnectMut source sink w => exact sTryConnectMut_es h es source sink w p hplen
  | disconnectMut source sink => exact sDisconnectMut_es h es source sink p
  | tryDisconnectMut source sink => exact sTryDisconnectMut_es h es source sink p
  | removeMut id c => exact sRemoveMut_es h vs es id c p
  | removeAllMut l c => exact sRemoveAllMut_es h vs es l c p
  | vertexDataMut id f => rfl
  | weightMut source sink f => exact sWeightMut_frame hsh source sink f hp

/-! Read-API congruence over value-equal stores. -/

theorem sVertex_data_congr {g : SGraph} {vs vs2 : List (Cell V)}
    (hv : ∀ p ∈ vptrs g, valAt vs2 p = valAt vs p) (id : Id) :
    sVertex_data g vs2 id = sVertex_data g vs id := by
  unfold sVertex_data
  cases hV : sVertexRaw g id with
  | none => rfl
  | some v =>
      simp only [hV, Option.some_bind]
      exact hv v.data (guts_mem_vptrs (sVertexRaw_mem_guts hV))

theorem sWeight_congr {g : SGraph} {es es2 : List (Cell E)}
    (he : ∀ p ∈ eptrs g, valAt es2 p = valAt es p) (source sink : Id) :
    sWeight g es2 source sink = sWeight g es source sink := by
  unfold sWeight
  cases hV : sVertexRaw g source with
  | none => rfl
  | some v =>
      simp only [hV, Option.some_bind]
      cases hq : sWeightPtr v sink with
      | none => rfl
      | some q =>
          simp only [Option.some_bind]
          exact he q (sWeightPtr_mem_eptrs hV hq)

theorem sIterData_congr {g : SGraph} {vs vs2 : List (Cell V)}
    (hv : ∀ p ∈ vptrs g, valAt vs2 p = valAt vs p) :
    sIterData g vs2 = sIterData g vs :=
  List.filterMap_congr (fun q hq => hv q hq)

theorem sIterWeights_congr {g : SGraph} {es es2 : List (Cell E)}
    (he : ∀ p ∈ eptrs g, valAt es2 p = valAt es p) :
    sIterWeights g es2 = sIterWeights g es :=
  List.filterMap_congr (fun q hq => he q hq)

theorem sOutboundEdges_congr {g : SGraph} {es es2 : List (Cell E)}
    (he : ∀ p ∈ eptrs g, valAt es2 p = valAt es p) (source : Id) :
    sOutboundEdges g es2 source = sOutboundEdges g es source := by
  unfold sOutboundEdges
  cases hV : sVertexRaw g source with
  | none => rfl
  | some v =>
      simp only [hV]
      refine List.filterMap_congr (fun e hme => ?_)
      cases e with
      | none => rfl
      | some iq =>
          simp only [Option.some_bind]
          rw [he iq.2 (adjPtrs_mem_eptrs (sVertexRaw_mem_guts hV)
            (List.mem_filterMap.mpr ⟨some iq, hme, rfl⟩))]

theorem sPredecessors_congr {g : SGraph} {vs vs2 : List (Cell V)}
    (hv : ∀ p ∈ vptrs g, valAt vs2 p = valAt vs p) (sink : Id) :
    sPredecessors g vs2 sink = sPredecessors g vs sink := by
  unfold sPredecessors
  refine List.filterMap_congr (fun ov hov => ?_)
  cases ov with
  | none => rfl
  | some v =>
      simp only [Option.some_bind]
      rw [hv v.data (guts_mem_vptrs hov)]

theorem sReads_congr {g : SGraph} {vs vs2 : List (Cell V)} {es es2 : List (Cell E)}
    (hv : ∀ p ∈ vptrs g, valAt vs2 p = valAt vs p)
    (he : ∀ p ∈ eptrs g, valAt es2 p = valAt es p) :
    sReads g vs2 es2 = sReads g vs es := by
  unfold sReads
  rw [funext (fun id => sVertex_data_congr hv id)]
  rw [funext (fun source => funext (fun sink => sWeight_congr he source sink))]
  rw [sIterData_congr hv, sIterWeights_congr he]
  rw [funext (fun source => sOutboundEdges_congr he source)]
  rw [funext (fun sink => sPredecessors_congr hv sink)]

theorem selfOK_clone_sharedOK {g : SGraph} {vs : List (Cell V)} {es : List (Cell E)}
    (hok : SelfOK g vs es) (c : Nat) :
    SharedOK g (sClone g c vs es).1 (sClone g c vs es).2.1 (sClone g c vs es).2.2.1 := by
  have hvsome : ∀ q ∈ vptrs g, (vs[q]?).isSome := by
    intro q hq
    have h1 := hok.1 q hq
    have h2 : 0 < (vptrs g).count q := List.count_pos_iff.mpr hq
    exact countAt_pos_isSome (by omega)
  have hesome : ∀ q ∈ eptrs g, (es[q]?).isSome := by
    intro q hq
    have h1 := hok.2 q hq
    have h2 : 0 < (eptrs g).count q := List.count_pos_iff.mpr hq
    exact countAt_pos_isSome (by omega)
  constructor
  · intro p hp
    have hpg : p ∈ vptrs g := by
      rcases List.mem_append.mp hp with h | h
      · exact h
      · exact h
    have hcnt := countAt_bumpAll (vptrs g) vs p hvsome
    show (vptrs g).count p + (vptrs g).count p ≤ countAt (bumpAll vs (vptrs g)) p
    rw [hcnt]
    have h1 := hok.1 p hpg
    omega
  · intro p hp
    have hpg : p ∈ eptrs g := by
      rcases List.mem_append.mp hp with h | h
      · exact h
      · exact h
    have hcnt := countAt_bumpAll (eptrs g) es p hesome
    show (eptrs g).count p + (eptrs g).count p ≤ countAt (bumpAll es (eptrs g)) p
    rw [hcnt]
    have h1 := hok.2 p hpg
    omega

/-- C4: counterexample to the entry-API contract under COW sharing. In the
concrete two-vertex graph with an edge of weight 7, or_insert on the existing
edge returns the existing weight untouched while the graph is unshared, and on
the absent reverse pair inserts the default; but on the clone of the very same
graph (weight Arc now shared) the same or_insert call on the existing edge
ends in Arc::get_mut(..).unwrap() panicking instead of returning a reference
to the weight. -/
theorem C4_or_insert_cow_panic :
    sOrInsert shT3.1 shT3.2 shA shB 0 = .ok (shT3.1, shT3.2, 0) ∧
    valAt shT3.2 0 = some 7 ∧
    (sOrInsert shT3.1 shT3.2 shB shA 99).map
      (fun r => sWeight r.1 r.2.1 shB shA) = .ok (some 99) ∧
    sHas_vertex shCl.1 shA = true ∧
    sHas_vertex shCl.1 shB = true ∧
    sHas_edge shCl.1 shA shB = true ∧
    sWeight shCl.1 shCl.2.2.1 shA shB = some 7 ∧
    sOrInsert shCl.1 shCl.2.2.1 shA shB 0 = .error .unwrapNone := by
  decide

/-- C8: clone isolation. For every self-consistent graph over the stores,
cloning it changes no value observable through its read API; performing any
single in-place mutation on the clone leaves every read-API observation of the
original equal to what it was before the clone; and symmetrically, any single
in-place mutation on the original leaves every read-API observation of the
clone unchanged. -/
theorem C8_clone_isolation (g : SGraph) (vs : List (Cell V)) (es : List (Cell E))
    (hok : SelfOK g vs es) (c : Nat) (oph opg : MutOp V E) :
    sReads g (sClone g c vs es).2.1 (sClone g c vs es).2.2.1 = sReads g vs es ∧
    sReads g
      (applyMut (sClone g c vs es).1 (sClone g c vs es).2.1 (sClone g c vs es).2.2.1
        oph).2.1
      (applyMut (sClone g c vs es).1 (sClone g c vs es).2.1 (sClone g c vs es).2.2.1
        oph).2.2 = sReads g vs es ∧
    sReads (sClone g c vs es).1
      (applyMut g (sClone g c vs es).2.1 (sClone g c vs es).2.2.1 opg).2.1
      (applyMut g (sClone g c vs es).2.1 (sClone g c vs es).2.2.1 opg).2.2
      = sReads (sClone g c vs es).1 (sClone g c vs es).2.1 (sClone g c vs es).2.2.1 := by
  have hvb : ∀ p ∈ vptrs g, valAt (sClone g c vs es).2.1 p = valAt vs p :=
    fun p _ => valAt_bumpAll (vptrs g) vs p
  have heb : ∀ p ∈ eptrs g, valAt (sClone g c vs es).2.2.1 p = valAt es p :=
    fun p _ => valAt_bumpAll (eptrs g) es p
  have hshared := selfOK_clone_sharedOK hok c
  have hclone : sReads g (sClone g c vs es).2.1 (sClone g c vs es).2.2.1
      = sReads g vs es := sReads_congr hvb heb
  refine ⟨hclone, ?_, ?_⟩
  · have hfv := fun p (hp : p ∈ vptrs g) => applyMut_frame_vs hshared oph hp
    have hfe := fun p (hp : p ∈ eptrs g) => applyMut_frame_es hshared oph hp
    exact (sReads_congr hfv hfe).trans hclone
  · have hsym := sharedOK_symm hshared
    have hfv := fun p (hp : p ∈ vptrs (sClone g c vs es).1) =>
      applyMut_frame_vs hsym opg hp
    have hfe := fun p (hp : p ∈ eptrs (sClone g c vs es).1) =>
      applyMut_frame_es hsym opg hp
    exact sReads_congr hfv hfe

/-- Witness for C8: the concrete two-vertex graph with one shared edge is
self-consistent over its stores, and the claim applies to it with a weight
write and a data write as the two mutations. -/
theorem C8_witness :
    SelfOK shT3.1 shT2.2.1 shT3.2 ∧
    sReads shT3.1 (sClone shT3.1 1 shT2.2.1 shT3.2).2.1
      (sClone shT3.1 1 shT2.2.1 shT3.2).2.2.1 = sReads shT3.1 shT2.2.1 shT3.2 :=
  ⟨by unfold SelfOK; decide,
    (C8_clone_isolation shT3.1 shT2.2.1 shT3.2 (by unfold SelfOK; decide) 1
      (MutOp.weightMut shA shB (fun w => w + 1))
      (MutOp.vertexDataMut shA (fun d => d * 2))).1⟩

end PG
